import Mathlib

/-!
# Voice-controlled bird game: leaderboard, physics, collision, voice commands

A shallow embedding of `improved-voice-bird/app.js`.

Modelling conventions
* JavaScript numbers that carry coordinates, velocities and random draws are
  rationals (`ℚ`); the counters `score` and `commandCount` and the
  leaderboard scores are integers (`Int`).
* The arithmetic of `createPipe` on the random draw is rounded to the nearest
  double after every operation (`roundDouble`), as JavaScript does; the other
  operations are exact.
* The global mutable variables (`gameState`, `bird`, `pipes`, the detector
  and frame variables) are the fields of an explicit `World` record that every
  operation takes and returns.
* `bird` starts as `null`; it is an `Option Bird`.  Code that dereferences it
  without a check (`updateGame`) returns `none` where JavaScript throws.
* `Math.random()`, `new Date().toLocaleDateString()`, `Date.now()` (integer
  milliseconds) and the frequency samples are inputs of the operations that
  use them.
* The detectors return, next to the new world, the list of the calls of
  `handleVoiceCommand` they made.
* The browser's animation frame queue is modelled for the `gameLoop`
  callbacks only: handles that were requested and have neither run nor been
  cancelled.
* DOM updates, console logging, the speech session (`recognition`,
  `isListening`) and the frame handle of the amplitude loop change none of the
  modelled variables and are left out; page elements looked up by id are
  taken to exist.
-/

namespace BirdGame

/-! ## GAME_CONFIG -/

def birdStartX : ℚ := 100
def birdStartY : ℚ := 300
def birdSize : ℚ := 30
def gravity : ℚ := 1 / 2
def flapStrength : ℚ := -8
def pipeWidth : ℚ := 60
def pipeGap : ℚ := 150
def pipeSpeed : ℚ := 2
def gameWidth : ℚ := 800
def gameHeight : ℚ := 600

/-! ## Data model -/

/-- The object held by the global `bird`. -/
structure Bird where
  x : ℚ
  y : ℚ
  velocity : ℚ
  size : ℚ
  deriving DecidableEq, Repr

/-- The object built by `createPipe`. -/
structure Pipe where
  x : ℚ
  topHeight : ℚ
  bottomY : ℚ
  bottomHeight : ℚ
  width : ℚ
  passed : Bool
  deriving DecidableEq, Repr

/-- The object built by `addToLeaderboard`. -/
structure Entry where
  playerName : String
  score : Int
  commands : Int
  date : String
  deriving DecidableEq, Repr

/-- The six values taken by `gameState.currentScreen`. -/
inductive Screen where
  | welcome
  | calibration
  | countdown
  | game
  | gameOver
  | leaderboard
  deriving DecidableEq, Repr

/-- The global object `gameState`. -/
structure GameState where
  currentScreen : Screen
  playerName : String
  score : Int
  commandCount : Int
  highScores : List Entry
  gameRunning : Bool
  gamePaused : Bool
  calibrationMode : Bool
  testDetectionCount : Int
  deriving DecidableEq, Repr

/-- The global variables read and written by the game logic.  Besides
`gameState`, `bird` and `pipes`: `VOICE_CONFIG.amplitudeThreshold`,
`isAudioInitialized` (the analyser node and the sample array exist exactly
when it is set), `amplitudeDetectionActive`, `lastCommandTime` in
milliseconds, the handle `animationFrame` (`null` at first), and the browser's
record of the `gameLoop` callbacks that `requestAnimationFrame` has accepted
and that have neither run nor been cancelled, with the next free handle. -/
structure World where
  gameState : GameState
  bird : Option Bird
  pipes : List Pipe
  amplitudeThreshold : ℚ := 3 / 10
  isAudioInitialized : Bool := false
  amplitudeDetectionActive : Bool := false
  lastCommandTime : Int := 0
  animationFrame : Option Nat := none
  pendingFrames : List Nat := []
  nextHandle : Nat := 1
  deriving DecidableEq, Repr

/-- A call `handleVoiceCommand(source, command)`. -/
structure Command where
  source : String
  command : String
  deriving DecidableEq, Repr

/-- The initial value of `gameState` in the source. -/
def initialGameState : GameState :=
  { currentScreen := Screen.welcome, playerName := "", score := 0, commandCount := 0,
    highScores := [], gameRunning := false, gamePaused := false, calibrationMode := false,
    testDetectionCount := 0 }

/-- The globals as the script declares them: `bird = null`, `pipes = []`. -/
def initialWorld : World :=
  { gameState := initialGameState, bird := none, pipes := [] }

/-! ## Leaderboard -/

/-- Place `e` behind every entry whose score is at least `e.score`, that is
in front of the first entry with a strictly smaller score. -/
def insertByScore (e : Entry) : List Entry → List Entry
  | [] => [e]
  | a :: l => if a.score < e.score then e :: a :: l else a :: insertByScore e l

/-- Model of `Array.prototype.sort((a, b) => b.score - a.score)`: the comparator is
negative exactly when `a.score > b.score`, so the array ends up in descending
order of score.  The sort is stable (ECMAScript 2019), which fixes its result;
it is computed here by inserting the elements one after the other, each behind
the already placed elements of the same score. -/
def sortByScoreDesc (l : List Entry) : List Entry :=
  l.foldl (fun acc e => insertByScore e acc) []

/-- Source `loadHighScores`: sets `gameState.highScores = []`. -/
def loadHighScores : List Entry := []

/-- Source `addToLeaderboard(playerName, score, commands)` on the array
`gameState.highScores`; `today` is `new Date().toLocaleDateString()`. -/
def addToLeaderboard (highScores : List Entry) (playerName : String) (score commands : Int)
    (today : String) : List Entry :=
  let entry : Entry :=
    { playerName := playerName, score := score, commands := commands, date := today }
  let sorted := sortByScoreDesc (highScores ++ [entry])
  if sorted.length > 10 then sorted.take 10 else sorted

/-- A sequence of `addToLeaderboard` calls, one per element of `es`, each call
passing the element's name, score, command count and date. -/
def addAll (highScores : List Entry) (es : List Entry) : List Entry :=
  es.foldl (fun hs e => addToLeaderboard hs e.playerName e.score e.commands e.date) highScores

/-- Eleven runs with the scores 100, 99, ..., 90, in that order. -/
def elevenRuns : List Entry :=
  [ { playerName := "ada", score := 100, commands := 40, date := "1/1/2025" },
    { playerName := "bob", score := 99, commands := 41, date := "1/1/2025" },
    { playerName := "cy", score := 98, commands := 42, date := "1/2/2025" },
    { playerName := "dee", score := 97, commands := 43, date := "1/2/2025" },
    { playerName := "eve", score := 96, commands := 44, date := "1/3/2025" },
    { playerName := "fay", score := 95, commands := 45, date := "1/3/2025" },
    { playerName := "gus", score := 94, commands := 46, date := "1/4/2025" },
    { playerName := "hal", score := 93, commands := 47, date := "1/4/2025" },
    { playerName := "ivy", score := 92, commands := 48, date := "1/5/2025" },
    { playerName := "jo", score := 91, commands := 49, date := "1/5/2025" },
    { playerName := "kim", score := 90, commands := 50, date := "1/6/2025" } ]

/-- The list is in non-increasing order of score. -/
def SortedDesc (l : List Entry) : Prop :=
  l.Pairwise (fun a b => b.score ≤ a.score)

/-- Specification of the stable descending sort: `sorted` is in non-increasing
order of score and, for every score, holds the entries of `input` with that
score, the same ones in the same order. -/
def IsStableSortDesc (input sorted : List Entry) : Prop :=
  SortedDesc sorted ∧
    ∀ s : Int, sorted.filter (fun a => decide (a.score = s)) =
      input.filter (fun a => decide (a.score = s))

/-- The leaderboard invariant: sorted by descending score, at most 10 entries. -/
def LeaderboardInv (highScores : List Entry) : Prop :=
  SortedDesc highScores ∧ highScores.length ≤ 10

/-- The entry matches both the player name and the score (`===` on both). -/
def Matches (playerName : String) (score : Int) (e : Entry) : Prop :=
  e.playerName = playerName ∧ e.score = score

/-- The loop of `getCurrentPlayerRank` from index `i` on, `rest` being the
elements of `gameState.highScores` at the indices `i, i+1, ...`. -/
def getCurrentPlayerRankFrom (playerName : String) (score : Int) :
    Nat → List Entry → Int
  | _, [] => -1
  | i, e :: rest =>
    if e.playerName = playerName ∧ e.score = score then (i : Int) + 1
    else getCurrentPlayerRankFrom playerName score (i + 1) rest

/-- Source `getCurrentPlayerRank()`, reading `gameState.highScores`,
`gameState.playerName` and `gameState.score`. -/
def getCurrentPlayerRank (highScores : List Entry) (playerName : String) (score : Int) : Int :=
  getCurrentPlayerRankFrom playerName score 0 highScores

/-! ## Double-precision rounding -/

/-- Round to the nearest integer, a tie going to the even neighbour. -/
def roundHalfEven (q : ℚ) : ℤ :=
  if q - (⌊q⌋ : ℚ) < 1 / 2 then ⌊q⌋
  else if 1 / 2 < q - (⌊q⌋ : ℚ) then ⌊q⌋ + 1
  else if ⌊q⌋ % 2 = 0 then ⌊q⌋ else ⌊q⌋ + 1

/-- The exponent of the binade of `x` in double precision: the integer `e`
with `2 ^ e ≤ |x| < 2 ^ (e + 1)`, and `-1022` below the normal range. -/
def binade (x : ℚ) : ℤ :=
  max (Int.log 2 |x|) (-1022)

/-- The spacing of the doubles in the binade of `x`: 52 fraction bits. -/
def ulp (x : ℚ) : ℚ :=
  (2 : ℚ) ^ (binade x - 52)

/-- The double nearest to `x`, ties to even: the rounding that JavaScript
applies to the exact result of every arithmetic operation.  Overflow to
infinity is left out; the values rounded here stay below 1024. -/
def roundDouble (x : ℚ) : ℚ :=
  (roundHalfEven (x / ulp x) : ℚ) * ulp x

/-! ## Bird and pipes -/

/-- Source `resetBird`. -/
def resetBird : Bird :=
  { x := birdStartX, y := birdStartY, velocity := 0, size := birdSize }

/-- Source `createPipe(x)`; `rand` is the value returned by `Math.random()`.
The product, the two sums and the difference that involve the random draw are
each rounded to the nearest double; `gameHeight - pipeGap - 100 = 350` is
exact. -/
def createPipe (x rand : ℚ) : Pipe :=
  let gapStart := roundDouble (roundDouble (rand * (gameHeight - pipeGap - 100)) + 50)
  { x := x, topHeight := gapStart, bottomY := roundDouble (gapStart + pipeGap),
    bottomHeight := roundDouble (gameHeight - roundDouble (gapStart + pipeGap)),
    width := pipeWidth, passed := false }

/-- Source `generateInitialPipes`: three pushes, for `i = 0, 1, 2`, each with its own
random draw. -/
def generateInitialPipes (pipes : List Pipe) (r0 r1 r2 : ℚ) : List Pipe :=
  ((pipes ++ [createPipe (gameWidth + 0 * 300) r0]) ++ [createPipe (gameWidth + 1 * 300) r1])
    ++ [createPipe (gameWidth + 2 * 300) r2]

/-- Source `resetGame`. -/
def resetGame (w : World) (r0 r1 r2 : ℚ) : World :=
  { w with
    gameState := { w.gameState with score := 0, commandCount := 0 }
    bird := some resetBird
    pipes := generateInitialPipes [] r0 r1 r2 }

/-- Source `flapBird` on the global `bird`: nothing happens while it is `null`. -/
def flapBird : Option Bird → Option Bird
  | none => none
  | some b => some { b with velocity := flapStrength }

/-- The pipe loop of `checkCollisions`: `true` at the first pipe that
overlaps the bird horizontally while the bird is not inside its gap. -/
def hitsPipe (b : Bird) : List Pipe → Bool
  | [] => false
  | pipe :: rest =>
    if b.x + b.size > pipe.x ∧ b.x < pipe.x + pipe.width then
      if b.y < pipe.topHeight ∨ b.y + b.size > pipe.bottomY then true
      else hitsPipe b rest
    else hitsPipe b rest

/-- Source `checkCollisions`. -/
def checkCollisions (b : Bird) (pipes : List Pipe) : Bool :=
  if b.y + b.size > gameHeight ∨ b.y < 0 then true
  else hitsPipe b pipes

/-- The body of the pipe loop of `updateGame` at index `i`, then the
iterations for `i - 1, ..., 0`.  The first argument is `i + 1`, so the loop
`for (let i = pipes.length - 1; i >= 0; i--)` is `updatePipes birdX pipes.length`.
The result is the array and the score after the loop; `none` stands for the
`TypeError` of reading `pipes[i]` outside the array. -/
def updatePipes (birdX : ℚ) : Nat → List Pipe → Int → Option (List Pipe × Int)
  | 0, pipes, score => some (pipes, score)
  | i + 1, pipes, score =>
    match pipes[i]? with
    | none => none
    | some p =>
      let moved : Pipe := { p with x := p.x - pipeSpeed }
      let scores : Bool := !moved.passed && decide (moved.x + moved.width < birdX)
      let marked : Pipe := if scores then { moved with passed := true } else moved
      let score1 : Int := if scores then score + 1 else score
      let pipes1 := pipes.set i marked
      let pipes2 := if marked.x + marked.width < 0 then pipes1.eraseIdx i else pipes1
      updatePipes birdX i pipes2 score1

/-- The condition of the "add new pipes" step of `updateGame`:
`pipes.length === 0 || pipes[pipes.length - 1].x < gameWidth - 300`. -/
def wantsNewPipe (pipes : List Pipe) : Bool :=
  pipes.length == 0 ||
    (match pipes[pipes.length - 1]? with
     | some p => decide (p.x < gameWidth - 300)
     | none => false)

/-- Browser `cancelAnimationFrame(handle)` for `gameLoop` callbacks. -/
def cancelAnimationFrame (w : World) (handle : Nat) : World :=
  { w with pendingFrames := w.pendingFrames.filter (fun h => h != handle) }

/-- Source `stopAmplitudeDetection`. -/
def stopAmplitudeDetection (w : World) : World :=
  { w with amplitudeDetectionActive := false }

/-- Source `endGame`: stops the run, cancels the frame whose handle is in
`animationFrame`, stops the amplitude detector and records the run on the
leaderboard; `showGameOverScreen` ends in `showScreen('gameOver')`. -/
def endGame (w : World) (today : String) : World :=
  let w1 : World := { w with gameState := { w.gameState with gameRunning := false } }
  let w2 : World :=
    match w1.animationFrame with
    | some handle => cancelAnimationFrame w1 handle
    | none => w1
  let w3 := stopAmplitudeDetection w2
  { w3 with
    gameState :=
      { w3.gameState with
        highScores := addToLeaderboard w3.gameState.highScores w3.gameState.playerName
          w3.gameState.score w3.gameState.commandCount today
        currentScreen := Screen.gameOver } }

/-- Source `updateGame`: one tick.  `rand` is the draw used if a pipe is created,
`today` the date used if the run ends. -/
def updateGame (w : World) (rand : ℚ) (today : String) : Option World :=
  match w.bird with
  | none => none
  | some b =>
    let velocity1 := b.velocity + gravity
    let b1 : Bird := { b with velocity := velocity1, y := b.y + velocity1 }
    match updatePipes b1.x w.pipes.length w.pipes w.gameState.score with
    | none => none
    | some (pipes1, score1) =>
      let pipes2 :=
        if wantsNewPipe pipes1 then pipes1 ++ [createPipe gameWidth rand] else pipes1
      let w1 : World :=
        { w with
          gameState := { w.gameState with score := score1 }
          bird := some b1
          pipes := pipes2 }
      if checkCollisions b1 pipes2 then some (endGame w1 today) else some w1

/-! ## Voice commands -/

/-- Source `handleCalibrationCommand`: counts the detection. -/
def handleCalibrationCommand (w : World) (_source _command : String) : World :=
  { w with
    gameState :=
      { w.gameState with testDetectionCount := w.gameState.testDetectionCount + 1 } }

/-- Source `handleVoiceCommand(source, command)`. -/
def handleVoiceCommand (w : World) (source command : String) : World :=
  if w.gameState.calibrationMode then handleCalibrationCommand w source command
  else if w.gameState.gameRunning && !w.gameState.gamePaused then
    { w with
      bird := flapBird w.bird
      gameState := { w.gameState with commandCount := w.gameState.commandCount + 1 } }
  else w

/-- The level computed by `detectAmplitude`: the samples are summed from left
to right, the sum is divided by the number of samples and then by 255.  For
an empty array JavaScript computes `0 / 0 = NaN`, here `none`. -/
def normalizedAmplitude (dataArray : List Nat) : Option ℚ :=
  let sum : Nat := dataArray.foldl (fun sum x => sum + x) 0
  if dataArray.length = 0 then none
  else some (((sum : ℚ) / (dataArray.length : ℚ)) / 255)

/-- One pass of `detectAmplitude` over the samples `dataArray`, with
`currentTime` the value of `Date.now()`.  The result is the world after the
pass and the calls of `handleVoiceCommand` made during it.  A comparison with
`NaN` is false. -/
def detectAmplitude (w : World) (dataArray : List Nat) (currentTime : Int) :
    World × List Command :=
  if !w.amplitudeDetectionActive then (w, [])
  else
    match normalizedAmplitude dataArray with
    | none => (w, [])
    | some level =>
      if level > w.amplitudeThreshold then
        if currentTime - w.lastCommandTime > 50 then
          ({ handleVoiceCommand w "amplitude" "sound detected" with
              lastCommandTime := currentTime },
            [{ source := "amplitude", command := "sound detected" }])
        else (w, [])
      else (w, [])

/-- The call raised by the amplitude detector. -/
def amplitudeCommand : Command :=
  { source := "amplitude", command := "sound detected" }

/-- The initial globals with the amplitude detector running. -/
def listeningWorld : World :=
  { initialWorld with isAudioInitialized := true, amplitudeDetectionActive := true }

/-- The word list `VOICE_COMMANDS`. -/
def VOICE_COMMANDS : List String := ["flap", "up", "jump", "go", "fly"]

/-- Model of `String.prototype.toLowerCase` on the characters of the string
(letters `A`-`Z`). -/
def toLowerCase (s : String) : String :=
  String.mk (s.data.map Char.toLower)

/-- Model of `String.prototype.trim`: white space is dropped at both ends. -/
def trim (s : String) : String :=
  String.mk ((s.data.dropWhile Char.isWhitespace).reverse.dropWhile Char.isWhitespace).reverse

/-- The characters `needle` occur in `hay` as a contiguous run. -/
def includesChars (needle : List Char) : List Char → Bool
  | [] => needle.isEmpty
  | c :: cs => needle.isPrefixOf (c :: cs) || includesChars needle cs

/-- Model of `String.prototype.includes`. -/
def includes (s searchString : String) : Bool :=
  includesChars searchString.data s.data

/-- The test `VOICE_COMMANDS.some(command => transcript.includes(command))`. -/
def matchesCommand (transcript : String) : Bool :=
  VOICE_COMMANDS.any (fun command => includes transcript command)

/-- A speech result event: `resultIndex` and, for every result, the
transcripts of its alternatives. -/
structure SpeechEvent where
  resultIndex : Nat
  results : List (List String)
  deriving DecidableEq, Repr

/-- The loop of `recognition.onresult` from index `i` on; the first argument
bounds the number of iterations left.  The result is the world after the loop
and the calls of `handleVoiceCommand` made, in order; `none` stands for the
`TypeError` of reading the transcript of a missing first alternative. -/
def onresultFrom (results : List (List String)) :
    Nat → Nat → World → Option (World × List Command)
  | 0, _, w => some (w, [])
  | fuel + 1, i, w =>
    if i < results.length then
      match results[i]? with
      | none => none
      | some result =>
        match result[0]? with
        | none => none
        | some text =>
          let transcript := trim (toLowerCase text)
          if matchesCommand transcript then
            match onresultFrom results fuel (i + 1) (handleVoiceCommand w "speech" transcript) with
            | none => none
            | some (w1, calls) =>
              some (w1, { source := "speech", command := transcript } :: calls)
          else onresultFrom results fuel (i + 1) w
    else some (w, [])

/-- Source `recognition.onresult`. -/
def onresult (w : World) (event : SpeechEvent) : Option (World × List Command) :=
  onresultFrom event.results (event.results.length - event.resultIndex) event.resultIndex w

/-- The calls that the specification asks for a list of results: one call with
source `speech` for every result whose lower-cased, trimmed first transcript
contains a command word, in the order of the results. -/
def callsFor (results : List (List String)) : List Command :=
  ((((results.filterMap (fun result => result[0]?)).map
    (fun text => trim (toLowerCase text))).filter matchesCommand).map
      (fun transcript => { source := "speech", command := transcript }))

/-- The calls that the specification asks of the speech handler: those for the
results at the indices from `resultIndex` on. -/
def speechCalls (event : SpeechEvent) : List Command :=
  callsFor (event.results.drop event.resultIndex)

/-- The result has a first alternative whose lower-cased, trimmed transcript
contains a command word. -/
def resultMatches (result : List String) : Bool :=
  match result[0]? with
  | some text => matchesCommand (trim (toLowerCase text))
  | none => false

/-- A world in calibration mode. -/
def calibratingWorld : World :=
  { initialWorld with gameState := { initialGameState with calibrationMode := true } }

/-- A world in unpaused play with the reset bird. -/
def playingWorld : World :=
  { initialWorld with
    bird := some resetBird
    gameState := { initialGameState with gameRunning := true } }

/-- A speech event with three results, the first of them already handled. -/
def sampleEvent : SpeechEvent :=
  { resultIndex := 1, results := [["flap"], ["  JUMPING now "], ["hello"]] }

/-- Apply `handleVoiceCommand` once per call, from left to right. -/
def applyCalls (w : World) (calls : List Command) : World :=
  calls.foldl (fun w1 c => handleVoiceCommand w1 c.source c.command) w

/-! ## Game loop, pause and animation frames -/

/-- The values that the browser supplies while one event is handled: the
draw of `Math.random()`, the date, the frequency samples and `Date.now()`. -/
structure Inputs where
  rand : ℚ
  today : String
  dataArray : List Nat
  currentTime : Int
  deriving DecidableEq, Repr

/-- Browser `requestAnimationFrame(gameLoop)`: the callback is recorded under
a fresh handle, which is returned. -/
def requestAnimationFrame (w : World) : World × Nat :=
  ({ w with pendingFrames := w.pendingFrames ++ [w.nextHandle], nextHandle := w.nextHandle + 1 },
    w.nextHandle)

/-- Source `gameLoop`: returns at once unless the game runs unpaused;
otherwise one `updateGame` tick (`drawGame` changes no state) and a request
for the next frame, whose handle is stored in `animationFrame`. -/
def gameLoop (w : World) (rand : ℚ) (today : String) : Option World :=
  if !w.gameState.gameRunning || w.gameState.gamePaused then some w
  else
    match updateGame w rand today with
    | none => none
    | some w1 =>
      some { (requestAnimationFrame w1).1 with
        animationFrame := some (requestAnimationFrame w1).2 }

/-- Source `startAmplitudeDetection`: nothing without initialised audio;
otherwise the detector is switched on and makes its first pass. -/
def startAmplitudeDetection (w : World) (dataArray : List Nat) (currentTime : Int) : World :=
  if !w.isAudioInitialized then w
  else (detectAmplitude { w with amplitudeDetectionActive := true } dataArray currentTime).1

/-- Source `startGameplay`; the speech session it starts is not modelled. -/
def startGameplay (w : World) (r0 r1 r2 : ℚ) (inp : Inputs) : Option World :=
  let w1 : World := { w with gameState := { w.gameState with currentScreen := Screen.game } }
  let w2 := resetGame w1 r0 r1 r2
  let w3 : World :=
    { w2 with gameState := { w2.gameState with gameRunning := true, gamePaused := false } }
  match gameLoop w3 inp.rand inp.today with
  | none => none
  | some w4 =>
    if w4.isAudioInitialized && !w4.amplitudeDetectionActive then
      some (startAmplitudeDetection w4 inp.dataArray inp.currentTime)
    else some w4

/-- Source `togglePause`, with the pause button present in the page; the
speech session it stops and starts is not modelled. -/
def togglePause (w : World) (inp : Inputs) : Option World :=
  if !w.gameState.gameRunning then some w
  else
    let w1 : World :=
      { w with gameState := { w.gameState with gamePaused := !w.gameState.gamePaused } }
    if w1.gameState.gamePaused then some (stopAmplitudeDetection w1)
    else
      match gameLoop w1 inp.rand inp.today with
      | none => none
      | some w2 => some (startAmplitudeDetection w2 inp.dataArray inp.currentTime)

/-- The browser runs the callbacks whose handles are listed, in order; a
callback cancelled in the meantime is skipped, and a callback that runs is no
longer pending. -/
def runCallbacks : List Nat → World → Inputs → Option World
  | [], w, _ => some w
  | handle :: rest, w, inp =>
    if w.pendingFrames.contains handle then
      match gameLoop { w with pendingFrames := w.pendingFrames.filter (fun h => h != handle) }
          inp.rand inp.today with
      | none => none
      | some w1 => runCallbacks rest w1 inp
    else runCallbacks rest w inp

/-- One display frame: the browser runs the `gameLoop` callbacks that are
pending when the frame begins. -/
def displayFrame (w : World) (inp : Inputs) : Option World :=
  runCallbacks w.pendingFrames w inp

/-- Inputs with no sound: random draw 0 and an empty sample array. -/
def quietInputs : Inputs :=
  { rand := 0, today := "1/1/2025", dataArray := [], currentTime := 0 }

/-- The trace start, pause, resume, with no display frame in between: the
game is started from the initial globals, then `togglePause` is called twice
before the browser runs the pending `gameLoop` callback. -/
def pauseResumeTrace : Option World :=
  (startGameplay initialWorld 0 0 0 quietInputs).bind
    (fun w1 => (togglePause w1 quietInputs).bind (fun w2 => togglePause w2 quietInputs))

/-- Summary of a world during the trace: the run and pause flags, the bird at
`x = 100` with size 30, height `y` and velocity `v`, every pipe at `x ≥ c`,
the pending `gameLoop` callbacks, the next free handle, the stored handle, and
no initialised audio. -/
def Snap (w : World) (running paused : Bool) (y v c : ℚ) (pending : List Nat) (next : Nat)
    (stored : Option Nat) : Prop :=
  w.gameState.gameRunning = running ∧ w.gameState.gamePaused = paused ∧
    w.bird = some { x := 100, y := y, velocity := v, size := 30 } ∧
    (∀ p ∈ w.pipes, c ≤ p.x) ∧ w.pendingFrames = pending ∧ w.nextHandle = next ∧
    w.animationFrame = stored ∧ w.isAudioInitialized = false

/-- What can happen between two observations of the game: a tick of
`updateGame` with its random draw and date, or a call of `flapBird`. -/
inductive Action where
  | tick (rand : ℚ) (today : String)
  | flap
  deriving DecidableEq, Repr

/-- Run one action. -/
def step (w : World) : Action → Option World
  | Action.tick rand today => updateGame w rand today
  | Action.flap => some { w with bird := flapBird w.bird }

/-- Run a sequence of actions from left to right. -/
def run (w : World) : List Action → Option World
  | [] => some w
  | a :: rest =>
    match step w a with
    | none => none
    | some w1 => run w1 rest

/-! ## Specification-side notions for the physics claims -/

/-- Two horizontal extents overlap when each begins before the other ends;
extents that merely touch end to end do not overlap. -/
def ExtentsOverlap (lo1 hi1 lo2 hi2 : ℚ) : Prop :=
  lo1 < hi2 ∧ lo2 < hi1

/-- The bird's vertical extent `[y, y + size]` lies inside the gap
`[topHeight, bottomY]` of the pipe. -/
def InsideGap (b : Bird) (p : Pipe) : Prop :=
  p.topHeight ≤ b.y ∧ b.y + b.size ≤ p.bottomY

/-- After the pipe has been advanced by `pipeSpeed`, its trailing edge is left
of the bird: `pipe.x + pipe.width < bird.x`. -/
def crossesBird (birdX : ℚ) (p : Pipe) : Bool :=
  decide (p.x - pipeSpeed + p.width < birdX)

/-- The pipe's `passed` flag goes from `false` to `true` in this tick. -/
def makesTransition (birdX : ℚ) (p : Pipe) : Bool :=
  !p.passed && crossesBird birdX p

/-- One pipe after one tick: moved left by `pipeSpeed`, flagged as passed if
it was already or if it has crossed the bird. -/
def advancePipe (birdX : ℚ) (p : Pipe) : Pipe :=
  { p with x := p.x - pipeSpeed, passed := p.passed || crossesBird birdX p }

/-- The pipe's trailing edge is left of the screen: `pipe.x + pipe.width < 0`. -/
def offScreen (p : Pipe) : Bool :=
  decide (p.x + p.width < 0)

/-- The pipes that the loop of `updateGame` leaves, as a map and a filter. -/
def advancePipes (birdX : ℚ) (pipes : List Pipe) : List Pipe :=
  (pipes.map (advancePipe birdX)).filter (fun p => !offScreen p)

/-- The pipe list one tick later: the surviving advanced pipes, followed by a
new pipe at `gameWidth` if `updateGame` wants one. -/
def nextPipes (birdX : ℚ) (pipes : List Pipe) (rand : ℚ) : List Pipe :=
  if wantsNewPipe (advancePipes birdX pipes) then
    advancePipes birdX pipes ++ [createPipe gameWidth rand]
  else advancePipes birdX pipes

/-- A tick action from the pair of its random draw and its date. -/
def toTick (t : ℚ × String) : Action :=
  Action.tick t.1 t.2

/-- Invariant of the pipe list during play: consecutive pipes at least 300
apart in ascending order, every pipe 60 wide and not yet off screen, between
one and three pipes. -/
def PipesInv (pipes : List Pipe) : Prop :=
  pipes.Pairwise (fun p q => p.x + 300 ≤ q.x) ∧
    (∀ p ∈ pipes, p.width = 60 ∧ -60 ≤ p.x) ∧ pipes ≠ [] ∧ pipes.length ≤ 3

/-- The pipe moved left by `pipeSpeed`, nothing else changed. -/
def movePipe (p : Pipe) : Pipe :=
  { p with x := p.x - pipeSpeed }

/-- The pipe with its `passed` flag brought up to date for this tick (the
scoring step of `updateGame`), nothing else changed. -/
def markPassed (birdX : ℚ) (p : Pipe) : Pipe :=
  { p with passed := p.passed || crossesBird birdX p }

/-- The pipe with its `passed` flag cleared: what is left is its geometry. -/
def withoutFlag (p : Pipe) : Pipe :=
  { p with passed := false }

/-- The moved pipes that stay: those without `x + width < 0`, in order. -/
def survivingPipes (pipes : List Pipe) : List Pipe :=
  (pipes.map movePipe).filter (fun p => !decide (p.x + p.width < 0))

/-- A new pipe is due: the surviving list is empty or its last pipe has
`x < gameWidth - 300`. -/
def newPipeDue (survivors : List Pipe) : Bool :=
  match survivors.getLast? with
  | none => true
  | some p => decide (p.x < gameWidth - 300)

/-- The pipe list after one tick as the specification words it: every pipe
moved left by `pipeSpeed`, the pipes with `x + width < 0` removed, then one
new pipe at `gameWidth` if one is due and none otherwise. -/
def pipesAfterTick (pipes : List Pipe) (rand : ℚ) : List Pipe :=
  survivingPipes pipes ++
    (if newPipeDue (survivingPipes pipes) then [createPipe gameWidth rand] else [])

/-- A pipe that the bird has already passed, 40 left of the bird's `x = 100`. -/
def passedPipe : Pipe :=
  { x := 0, topHeight := 200, bottomY := 350, bottomHeight := 250, width := 60, passed := true }

instance (l : List Entry) : Decidable (SortedDesc l) := by
  unfold SortedDesc
  infer_instance

instance (l : List Entry) : Decidable (LeaderboardInv l) := by
  unfold LeaderboardInv
  infer_instance

instance (n : String) (sc : Int) (e : Entry) : Decidable (Matches n sc e) := by
  unfold Matches
  infer_instance

instance (lo1 hi1 lo2 hi2 : ℚ) : Decidable (ExtentsOverlap lo1 hi1 lo2 hi2) := by
  unfold ExtentsOverlap
  infer_instance

instance (b : Bird) (p : Pipe) : Decidable (InsideGap b p) := by
  unfold InsideGap
  infer_instance

instance (pipes : List Pipe) : Decidable (PipesInv pipes) := by
  unfold PipesInv
  infer_instance

/-- The bird one tick later: gravity is added to the velocity, then the new
velocity is added to `y`. -/
def tickBird (b : Bird) : Bird :=
  { b with velocity := b.velocity + gravity, y := b.y + (b.velocity + gravity) }

/-! ## Leaderboard: sorting lemmas -/

theorem mem_insertByScore (e b : Entry) (l : List Entry) :
    b ∈ insertByScore e l ↔ b = e ∨ b ∈ l := by
  induction l with
  | nil => simp [insertByScore]
  | cons a l ih =>
    unfold insertByScore
    split
    · simp
    · simp only [List.mem_cons, ih]
      tauto

theorem sortedDesc_insertByScore (e : Entry) (l : List Entry) (h : SortedDesc l) :
    SortedDesc (insertByScore e l) := by
  induction l with
  | nil => simp [insertByScore, SortedDesc]
  | cons a l ih =>
    unfold SortedDesc at h ih ⊢
    rw [List.pairwise_cons] at h
    unfold insertByScore
    split
    · rename_i hlt
      refine List.pairwise_cons.2 ⟨?_, List.pairwise_cons.2 h⟩
      intro b hb
      rcases List.mem_cons.1 hb with rfl | hb
      · exact le_of_lt hlt
      · exact le_trans (h.1 b hb) (le_of_lt hlt)
    · rename_i hlt
      refine List.pairwise_cons.2 ⟨?_, ih h.2⟩
      intro b hb
      rcases (mem_insertByScore e b l).1 hb with rfl | hb
      · exact not_lt.1 hlt
      · exact h.1 b hb

theorem sortByScoreDesc_append_singleton (l : List Entry) (e : Entry) :
    sortByScoreDesc (l ++ [e]) = insertByScore e (sortByScoreDesc l) := by
  simp [sortByScoreDesc, List.foldl_append]

theorem sortedDesc_sortByScoreDesc (l : List Entry) : SortedDesc (sortByScoreDesc l) := by
  induction l using List.reverseRecOn with
  | nil => simp [sortByScoreDesc, SortedDesc]
  | append_singleton l e ih =>
    rw [sortByScoreDesc_append_singleton]
    exact sortedDesc_insertByScore e _ ih

theorem length_insertByScore (e : Entry) (l : List Entry) :
    (insertByScore e l).length = l.length + 1 := by
  induction l with
  | nil => simp [insertByScore]
  | cons a l ih =>
    unfold insertByScore
    split <;> simp [ih]

theorem length_sortByScoreDesc (l : List Entry) : (sortByScoreDesc l).length = l.length := by
  induction l using List.reverseRecOn with
  | nil => simp [sortByScoreDesc]
  | append_singleton l e ih =>
    rw [sortByScoreDesc_append_singleton, length_insertByScore, ih]
    simp

theorem insertByScore_of_le (e : Entry) (l : List Entry)
    (h : ∀ a ∈ l, e.score ≤ a.score) : insertByScore e l = l ++ [e] := by
  induction l with
  | nil => simp [insertByScore]
  | cons a l ih =>
    unfold insertByScore
    have ha : ¬ a.score < e.score := not_lt.2 (h a (List.mem_cons_self a l))
    rw [if_neg ha, ih (fun b hb => h b (List.mem_cons_of_mem a hb))]
    simp

theorem sortByScoreDesc_of_sorted (l : List Entry) (h : SortedDesc l) :
    sortByScoreDesc l = l := by
  induction l using List.reverseRecOn with
  | nil => simp [sortByScoreDesc]
  | append_singleton l e ih =>
    unfold SortedDesc at h ih
    rw [List.pairwise_append] at h
    rw [sortByScoreDesc_append_singleton, ih h.1]
    exact insertByScore_of_le e l (fun a ha => h.2.2 a ha e (List.mem_singleton_self e))

theorem take_insertByScore (e : Entry) (l : List Entry) (n : Nat) :
    (insertByScore e l).take n = (insertByScore e (l.take n)).take n := by
  induction l generalizing n with
  | nil => simp
  | cons a l ih =>
    cases n with
    | zero => simp
    | succ m =>
      rw [List.take_succ_cons]
      unfold insertByScore
      split
      · simp only [List.take_succ_cons]
        congr 1
        cases m with
        | zero => simp
        | succ k => simp [List.take_take]
      · simp only [List.take_succ_cons]
        congr 1
        rw [ih m]

theorem addToLeaderboard_eq (hs : List Entry) (n : String) (sc c : Int) (d : String) :
    addToLeaderboard hs n sc c d =
      (insertByScore { playerName := n, score := sc, commands := c, date := d }
        (sortByScoreDesc hs)).take 10 := by
  unfold addToLeaderboard
  simp only [sortByScoreDesc_append_singleton]
  split
  · rfl
  · rename_i h
    exact (List.take_of_length_le (not_lt.1 h)).symm

theorem addAll_append_singleton (hs es : List Entry) (e : Entry) :
    addAll hs (es ++ [e]) =
      addToLeaderboard (addAll hs es) e.playerName e.score e.commands e.date := by
  simp [addAll, List.foldl_append]

theorem addAll_eq_take_sort (es : List Entry) :
    addAll loadHighScores es = (sortByScoreDesc es).take 10 := by
  induction es using List.reverseRecOn with
  | nil => simp [addAll, loadHighScores, sortByScoreDesc]
  | append_singleton es e ih =>
    rw [addAll_append_singleton, ih, addToLeaderboard_eq, sortByScoreDesc_append_singleton]
    have hs : SortedDesc ((sortByScoreDesc es).take 10) :=
      List.Pairwise.sublist (List.take_sublist _ _) (sortedDesc_sortByScoreDesc es)
    rw [sortByScoreDesc_of_sorted _ hs]
    exact (take_insertByScore e (sortByScoreDesc es) 10).symm

theorem filter_insertByScore (e : Entry) (l : List Entry) (h : SortedDesc l) (s : Int) :
    (insertByScore e l).filter (fun a => decide (a.score = s)) =
      l.filter (fun a => decide (a.score = s)) ++
        [e].filter (fun a => decide (a.score = s)) := by
  induction l with
  | nil => simp [insertByScore]
  | cons a l ih =>
    unfold SortedDesc at h ih
    rw [List.pairwise_cons] at h
    unfold insertByScore
    split
    · rename_i hlt
      by_cases hes : e.score = s
      · have hnone : (a :: l).filter (fun a => decide (a.score = s)) = [] := by
          rw [List.filter_eq_nil_iff]
          intro b hb
          rcases List.mem_cons.1 hb with rfl | hb
          · simp; omega
          · have := h.1 b hb
            simp; omega
        rw [List.filter_cons_of_pos (by simpa using hes), hnone]
        simp [hes]
      · rw [List.filter_cons_of_neg (by simpa using hes)]
        simp [hes]
    · by_cases has : a.score = s
      · rw [List.filter_cons_of_pos (by simpa using has),
          List.filter_cons_of_pos (by simpa using has), ih h.2]
        simp
      · rw [List.filter_cons_of_neg (by simpa using has),
          List.filter_cons_of_neg (by simpa using has), ih h.2]

theorem isStableSortDesc_sortByScoreDesc (es : List Entry) :
    IsStableSortDesc es (sortByScoreDesc es) := by
  refine ⟨sortedDesc_sortByScoreDesc es, fun s => ?_⟩
  induction es using List.reverseRecOn with
  | nil => simp [sortByScoreDesc]
  | append_singleton es e ih =>
    rw [sortByScoreDesc_append_singleton,
      filter_insertByScore e _ (sortedDesc_sortByScoreDesc es) s, ih, List.filter_append]

theorem stableSortDesc_unique (l1 l2 : List Entry) (h1 : SortedDesc l1) (h2 : SortedDesc l2)
    (h : ∀ s : Int, l1.filter (fun a => decide (a.score = s)) =
      l2.filter (fun a => decide (a.score = s))) : l1 = l2 := by
  have hmem : ∀ (k1 k2 : List Entry), (∀ s : Int, k1.filter (fun a => decide (a.score = s)) =
      k2.filter (fun a => decide (a.score = s))) → ∀ a ∈ k1, a ∈ k2 := by
    intro k1 k2 hk a ha
    have : a ∈ k1.filter (fun b => decide (b.score = a.score)) := by
      simp [List.mem_filter, ha]
    rw [hk] at this
    exact (List.mem_filter.1 this).1
  induction l1 generalizing l2 with
  | nil =>
    cases l2 with
    | nil => rfl
    | cons b l2 =>
      have := hmem (b :: l2) [] (fun s => (h s).symm) b (List.mem_cons_self b l2)
      simp at this
  | cons a l1 ih =>
    cases l2 with
    | nil =>
      have := hmem (a :: l1) [] h a (List.mem_cons_self a l1)
      simp at this
    | cons b l2 =>
      unfold SortedDesc at h1 h2 ih
      rw [List.pairwise_cons] at h1 h2
      have hab : a.score ≤ b.score := by
        rcases List.mem_cons.1 (hmem _ _ h a (List.mem_cons_self a l1)) with rfl | hm
        · exact le_refl _
        · exact h2.1 a hm
      have hba : b.score ≤ a.score := by
        rcases List.mem_cons.1
          (hmem _ _ (fun s => (h s).symm) b (List.mem_cons_self b l2)) with rfl | hm
        · exact le_refl _
        · exact h1.1 b hm
      have hsc : b.score = a.score := le_antisymm hba hab
      have h0 := h a.score
      rw [List.filter_cons_of_pos (by simp), List.filter_cons_of_pos (by simp [hsc])] at h0
      have hab2 : a = b := (List.cons.inj h0).1
      subst hab2
      congr 1
      apply ih l2 h1.2 h2.2
      intro s
      have hs := h s
      by_cases hc : a.score = s
      · rw [List.filter_cons_of_pos (by simpa using hc),
          List.filter_cons_of_pos (by simpa using hc)] at hs
        exact (List.cons.inj hs).2
      · rw [List.filter_cons_of_neg (by simpa using hc),
          List.filter_cons_of_neg (by simpa using hc)] at hs
        exact hs

theorem getCurrentPlayerRankFrom_spec (n : String) (sc : Int) (l : List Entry) (i : Nat) :
    (getCurrentPlayerRankFrom n sc i l = -1 ↔ ∀ e ∈ l, ¬ Matches n sc e) ∧
    (∀ (k : Nat) (e : Entry), l[k]? = some e → Matches n sc e →
      (∀ (j : Nat) (e1 : Entry), j < k → l[j]? = some e1 → ¬ Matches n sc e1) →
      getCurrentPlayerRankFrom n sc i l = (i : Int) + (k : Int) + 1) ∧
    (getCurrentPlayerRankFrom n sc i l = -1 ∨
      ((i : Int) + 1 ≤ getCurrentPlayerRankFrom n sc i l ∧
        getCurrentPlayerRankFrom n sc i l ≤ (i : Int) + (l.length : Int))) := by
  induction l generalizing i with
  | nil => simp [getCurrentPlayerRankFrom]
  | cons a l ih =>
    unfold getCurrentPlayerRankFrom
    by_cases hm : a.playerName = n ∧ a.score = sc
    · rw [if_pos hm]
      refine ⟨⟨fun h => by omega, fun h => absurd hm (h a (List.mem_cons_self a l))⟩, ?_, ?_⟩
      · intro k e hk he hmin
        cases k with
        | zero => simp
        | succ k =>
          exact absurd hm (hmin 0 a (Nat.succ_pos k) (by simp))
      · right
        simp only [List.length_cons, Nat.cast_add, Nat.cast_one]
        omega
    · rw [if_neg hm]
      obtain ⟨h1, h2, h3⟩ := ih (i + 1)
      refine ⟨?_, ?_, ?_⟩
      · rw [h1]
        constructor
        · intro h e he
          rcases List.mem_cons.1 he with rfl | he
          · exact hm
          · exact h e he
        · intro h e he
          exact h e (List.mem_cons_of_mem a he)
      · intro k e hk he hmin
        cases k with
        | zero =>
          simp only [List.getElem?_cons_zero, Option.some.injEq] at hk
          subst hk
          exact absurd he hm
        | succ k =>
          simp only [List.getElem?_cons_succ] at hk
          rw [h2 k e hk he (fun j e1 hj hj1 => hmin (j + 1) e1 (Nat.succ_lt_succ hj) (by simpa using hj1))]
          push_cast
          ring
      · rcases h3 with h3 | h3
        · exact Or.inl h3
        · right
          simp only [List.length_cons, Nat.cast_add, Nat.cast_one] at h3 ⊢
          omega

/-! ## Leaderboard: the claims -/

/-- Claim C1: starting from the empty leaderboard of `loadHighScores`, after
any sequence of `addToLeaderboard` calls the stored list is the first 10
entries of the stable descending sort of all entries inserted so far: it is
the 10-prefix of every list that is sorted by descending score and keeps, for
each score, the inserted entries of that score in insertion order, and such a
list exists.  In particular 11 entries with the scores 100, 99, ..., 90 leave
the first ten, with the scores 100..91, and drop 90. -/
theorem addAll_eq_top10_of_stable_sort :
    (∀ es sorted : List Entry, IsStableSortDesc es sorted →
      addAll loadHighScores es = sorted.take 10) ∧
    (∀ es : List Entry, IsStableSortDesc es (sortByScoreDesc es)) ∧
    (∀ es : List Entry,
      es.map (fun e => e.score) = [100, 99, 98, 97, 96, 95, 94, 93, 92, 91, 90] →
      addAll loadHighScores es = es.take 10 ∧
      (addAll loadHighScores es).map (fun e => e.score) =
        [100, 99, 98, 97, 96, 95, 94, 93, 92, 91]) := by
  refine ⟨?_, isStableSortDesc_sortByScoreDesc, ?_⟩
  · intro es sorted h
    have hu := stableSortDesc_unique (sortByScoreDesc es) sorted
      (sortedDesc_sortByScoreDesc es) h.1
      (fun s => ((isStableSortDesc_sortByScoreDesc es).2 s).trans (h.2 s).symm)
    rw [addAll_eq_take_sort, hu]
  · intro es h
    have hsorted : SortedDesc es := by
      have hp : (es.map (fun e => e.score)).Pairwise (fun a b => b ≤ a) := by
        rw [h]
        decide
      exact (List.pairwise_map.1 hp)
    have hres : addAll loadHighScores es = es.take 10 := by
      rw [addAll_eq_take_sort, sortByScoreDesc_of_sorted es hsorted]
    refine ⟨hres, ?_⟩
    rw [hres, List.map_take, h]
    rfl

theorem addAll_eq_top10_of_stable_sort_witness :
    elevenRuns.map (fun e => e.score) = [100, 99, 98, 97, 96, 95, 94, 93, 92, 91, 90] ∧
    IsStableSortDesc elevenRuns (sortByScoreDesc elevenRuns) ∧
    addAll loadHighScores elevenRuns = (sortByScoreDesc elevenRuns).take 10 ∧
    addAll loadHighScores elevenRuns = elevenRuns.take 10 ∧
    (addAll loadHighScores elevenRuns).map (fun e => e.score) =
      [100, 99, 98, 97, 96, 95, 94, 93, 92, 91] :=
  ⟨rfl, addAll_eq_top10_of_stable_sort.2.1 elevenRuns,
    addAll_eq_top10_of_stable_sort.1 elevenRuns (sortByScoreDesc elevenRuns)
      (addAll_eq_top10_of_stable_sort.2.1 elevenRuns),
    (addAll_eq_top10_of_stable_sort.2.2 elevenRuns rfl).1,
    (addAll_eq_top10_of_stable_sort.2.2 elevenRuns rfl).2⟩

/-- Claim C2: the leaderboard invariant (non-increasing order of score, at
most 10 entries) holds for the list set by `loadHighScores` and is preserved
by every call of `addToLeaderboard`, for every name, score, command count and
date. -/
theorem leaderboardInv_init_and_preserved :
    LeaderboardInv loadHighScores ∧
    ∀ (hs : List Entry) (playerName : String) (score commands : Int) (today : String),
      LeaderboardInv hs → LeaderboardInv (addToLeaderboard hs playerName score commands today) := by
  refine ⟨by simp [LeaderboardInv, SortedDesc, loadHighScores], ?_⟩
  intro hs n sc c d _
  rw [addToLeaderboard_eq]
  refine ⟨?_, by simp [List.length_take]⟩
  exact List.Pairwise.sublist (List.take_sublist _ _)
    (sortedDesc_insertByScore _ _ (sortedDesc_sortByScoreDesc hs))

theorem leaderboardInv_init_and_preserved_witness :
    LeaderboardInv (elevenRuns.take 10) ∧
    LeaderboardInv (addToLeaderboard (elevenRuns.take 10) "lee" 95 12 "1/7/2025") :=
  have h : LeaderboardInv (elevenRuns.take 10) := by
    refine ⟨?_, by decide⟩
    have hp : ((elevenRuns.take 10).map (fun e => e.score)).Pairwise (fun a b => b ≤ a) := by
      decide
    exact List.pairwise_map.1 hp
  ⟨h, leaderboardInv_init_and_preserved.2 (elevenRuns.take 10) "lee" 95 12 "1/7/2025" h⟩

/-- Claim C3: `getCurrentPlayerRank` returns `i + 1` for the smallest index
`i` whose entry has exactly the given name and score, returns `-1` if and only
if no entry matches both, returns nothing but `-1` or a positive number, and a
positive result lies between 1 and the length of the list. -/
theorem getCurrentPlayerRank_spec (hs : List Entry) (playerName : String) (score : Int) :
    (∀ (i : Nat) (e : Entry), hs[i]? = some e → Matches playerName score e →
      (∀ (j : Nat) (e1 : Entry), j < i → hs[j]? = some e1 → ¬ Matches playerName score e1) →
      getCurrentPlayerRank hs playerName score = (i : Int) + 1) ∧
    (getCurrentPlayerRank hs playerName score = -1 ↔
      ∀ e ∈ hs, ¬ Matches playerName score e) ∧
    (getCurrentPlayerRank hs playerName score = -1 ∨
      0 < getCurrentPlayerRank hs playerName score) ∧
    (0 < getCurrentPlayerRank hs playerName score →
      1 ≤ getCurrentPlayerRank hs playerName score ∧
      getCurrentPlayerRank hs playerName score ≤ (hs.length : Int)) := by
  obtain ⟨h1, h2, h3⟩ := getCurrentPlayerRankFrom_spec playerName score hs 0
  unfold getCurrentPlayerRank
  refine ⟨?_, h1, ?_, ?_⟩
  · intro i e hi he hmin
    rw [h2 i e hi he hmin]
    simp
  · rcases h3 with h3 | h3
    · exact Or.inl h3
    · right
      omega
  · intro hpos
    rcases h3 with h3 | h3
    · omega
    · simpa using h3

theorem getCurrentPlayerRank_spec_witness :
    getCurrentPlayerRank elevenRuns "ada" 100 = 1 ∧
    (0 < getCurrentPlayerRank elevenRuns "ada" 100 →
      1 ≤ getCurrentPlayerRank elevenRuns "ada" 100 ∧
      getCurrentPlayerRank elevenRuns "ada" 100 ≤ (elevenRuns.length : Int)) :=
  ⟨(getCurrentPlayerRank_spec elevenRuns "ada" 100).1 0
      { playerName := "ada", score := 100, commands := 40, date := "1/1/2025" } rfl
      ⟨rfl, rfl⟩ (fun j _ hj _ => absurd hj (Nat.not_lt_zero j)),
    (getCurrentPlayerRank_spec elevenRuns "ada" 100).2.2.2⟩

/-! ## Collision -/

theorem hitsPipe_iff (b : Bird) (pipes : List Pipe) :
    hitsPipe b pipes = true ↔
      ∃ p ∈ pipes, ExtentsOverlap p.x (p.x + p.width) b.x (b.x + b.size) ∧ ¬ InsideGap b p := by
  induction pipes with
  | nil => simp [hitsPipe]
  | cons p rest ih =>
    unfold hitsPipe
    by_cases hx : b.x + b.size > p.x ∧ b.x < p.x + p.width
    · rw [if_pos hx]
      by_cases hy : b.y < p.topHeight ∨ b.y + b.size > p.bottomY
      · rw [if_pos hy]
        simp only [true_iff]
        refine ⟨p, List.mem_cons_self p rest, ⟨hx.1, hx.2⟩, ?_⟩
        intro hin
        rcases hy with hy | hy
        · exact absurd hin.1 (not_le.2 hy)
        · exact absurd hin.2 (not_le.2 hy)
      · rw [if_neg hy, ih]
        constructor
        · rintro ⟨q, hq, h⟩
          exact ⟨q, List.mem_cons_of_mem p hq, h⟩
        · rintro ⟨q, hq, h⟩
          rcases List.mem_cons.1 hq with rfl | hq
          · exfalso
            apply h.2
            constructor
            · exact not_lt.1 (fun hlt => hy (Or.inl hlt))
            · exact not_lt.1 (fun hlt => hy (Or.inr hlt))
          · exact ⟨q, hq, h⟩
    · rw [if_neg hx, ih]
      constructor
      · rintro ⟨q, hq, h⟩
        exact ⟨q, List.mem_cons_of_mem p hq, h⟩
      · rintro ⟨q, hq, h⟩
        rcases List.mem_cons.1 hq with rfl | hq
        · exact absurd ⟨h.1.1, h.1.2⟩ hx
        · exact ⟨q, hq, h⟩

/-- Claim C4: `checkCollisions` returns `true` if and only if (a) the bird's
bottom `y + size` is beyond the floor `gameHeight = 600` or its top `y` is
beyond the ceiling `0`, or (b) some pipe's horizontal extent overlaps the
bird's horizontal extent while the bird's vertical extent is not contained in
that pipe's gap. -/
theorem checkCollisions_iff (b : Bird) (pipes : List Pipe) :
    checkCollisions b pipes = true ↔
      (b.y + b.size > 600 ∨ b.y < 0) ∨
        ∃ p ∈ pipes, ExtentsOverlap p.x (p.x + p.width) b.x (b.x + b.size) ∧
          ¬ (p.topHeight ≤ b.y ∧ b.y + b.size ≤ p.bottomY) := by
  unfold checkCollisions
  have hg : gameHeight = 600 := rfl
  rw [hg]
  by_cases h : b.y + b.size > 600 ∨ b.y < 0
  · simp [h]
  · rw [if_neg h, hitsPipe_iff]
    simp [h, InsideGap]

/-- Claim C5, counterexample: with no pipes, a bird exactly at `y = 0` and a
bird with `y + size = gameHeight` are both reported as not colliding. -/
theorem checkCollisions_boundary_not_inclusive :
    checkCollisions { x := 100, y := 0, velocity := 0, size := 30 } [] = false ∧
    ((570 : ℚ) + 30 = gameHeight ∧
      checkCollisions { x := 100, y := 570, velocity := 0, size := 30 } [] = false) := by
  refine ⟨?_, ?_, ?_⟩
  · simp [checkCollisions, hitsPipe, gameHeight]
    norm_num
  · norm_num [gameHeight]
  · simp [checkCollisions, hitsPipe, gameHeight]
    norm_num

/-- Claim C5, amended: boundary collisions are exclusive.  For every pipe
list `checkCollisions` returns `true` when the bird is beyond a boundary
(`y < 0` or `y + size > gameHeight`); a bird exactly at `y = 0` or at
`y + size = gameHeight`, and not beyond the other boundary, collides only if
it hits a pipe, so equality alone does not count as a collision. -/
theorem checkCollisions_boundary_exclusive (b : Bird) (pipes : List Pipe) :
    ((b.y < 0 ∨ b.y + b.size > gameHeight) → checkCollisions b pipes = true) ∧
    ((b.y = 0 ∨ b.y + b.size = gameHeight) → 0 ≤ b.y → b.y + b.size ≤ gameHeight →
      (checkCollisions b pipes = hitsPipe b pipes ∧ checkCollisions b [] = false)) := by
  unfold checkCollisions
  constructor
  · intro h
    rw [if_pos (Or.symm h)]
  · intro _ h0 h1
    have h : ¬ (b.y + b.size > gameHeight ∨ b.y < 0) := by
      rintro (h | h)
      · exact absurd h1 (not_le.2 h)
      · exact absurd h0 (not_le.2 h)
    rw [if_neg h, if_neg h]
    exact ⟨rfl, rfl⟩

theorem checkCollisions_boundary_exclusive_witness :
    checkCollisions { x := 100, y := -1, velocity := 0, size := 30 } [] = true ∧
    checkCollisions { x := 100, y := 0, velocity := 0, size := 30 } [] = false :=
  ⟨(checkCollisions_boundary_exclusive { x := 100, y := -1, velocity := 0, size := 30 } []).1
      (Or.inl (by norm_num)),
    ((checkCollisions_boundary_exclusive { x := 100, y := 0, velocity := 0, size := 30 } []).2
      (Or.inl rfl) (le_refl _) (by norm_num [gameHeight])).2⟩

/-! ## The pipe loop of `updateGame` -/

theorem updatePipes_succ (bx : ℚ) (i : Nat) (pipes : List Pipe) (sc : Int) (p : Pipe)
    (h : pipes[i]? = some p) :
    updatePipes bx (i + 1) pipes sc =
      updatePipes bx i
        (if offScreen (advancePipe bx p) = true then (pipes.set i (advancePipe bx p)).eraseIdx i
          else pipes.set i (advancePipe bx p))
        (if makesTransition bx p = true then sc + 1 else sc) := by
  rw [updatePipes]
  simp only [h]
  have hmark : (if (!p.passed && decide (p.x - pipeSpeed + p.width < bx)) = true
      then ({ p with x := p.x - pipeSpeed, passed := true } : Pipe)
      else { p with x := p.x - pipeSpeed }) = advancePipe bx p := by
    unfold advancePipe crossesBird
    cases hp : p.passed <;> by_cases hc : p.x - pipeSpeed + p.width < bx <;> simp [hp, hc]
  simp only [hmark]
  simp [offScreen, makesTransition, crossesBird]

theorem updatePipes_append (bx : ℚ) (pre : List Pipe) :
    ∀ (suf : List Pipe) (sc : Int),
      updatePipes bx pre.length (pre ++ suf) sc =
        some (advancePipes bx pre ++ suf,
          sc + ((pre.filter (makesTransition bx)).length : Int)) := by
  induction pre using List.reverseRecOn with
  | nil =>
    intro suf sc
    simp [updatePipes, advancePipes]
  | append_singleton pre p ih =>
    intro suf sc
    have hlen : (pre ++ [p]).length = pre.length + 1 := by simp
    have hget : (pre ++ [p] ++ suf)[pre.length]? = some p := by
      rw [List.append_assoc, List.getElem?_append_right (le_refl _)]
      simp
    rw [hlen, updatePipes_succ bx pre.length _ sc p hget]
    have hset : (pre ++ [p] ++ suf).set pre.length (advancePipe bx p) =
        pre ++ advancePipe bx p :: suf := by
      rw [List.append_assoc, List.set_append_right _ _ (le_refl _)]
      simp
    have herase : (pre ++ advancePipe bx p :: suf).eraseIdx pre.length = pre ++ suf := by
      rw [List.eraseIdx_append_of_length_le (le_refl _)]
      simp
    rw [hset, herase]
    by_cases hoff : offScreen (advancePipe bx p) = true
    · rw [if_pos hoff, ih]
      by_cases htr : makesTransition bx p = true
      · simp [advancePipes, hoff, htr, List.filter_append]
        ring
      · simp [advancePipes, hoff, htr, List.filter_append]
    · rw [if_neg hoff, ih]
      by_cases htr : makesTransition bx p = true
      · simp [advancePipes, hoff, htr, List.filter_append]
        ring
      · simp [advancePipes, hoff, htr, List.filter_append]

theorem updatePipes_eq (bx : ℚ) (pipes : List Pipe) (sc : Int) :
    updatePipes bx pipes.length pipes sc =
      some (advancePipes bx pipes, sc + ((pipes.filter (makesTransition bx)).length : Int)) := by
  have h := updatePipes_append bx pipes [] sc
  simpa using h

/-! ## One tick of `updateGame` -/

theorem endGame_fields (w : World) (today : String) :
    (endGame w today).bird = w.bird ∧ (endGame w today).pipes = w.pipes ∧
      (endGame w today).gameState.score = w.gameState.score := by
  unfold endGame
  dsimp only
  split <;> exact ⟨rfl, rfl, rfl⟩

theorem updateGame_some (w : World) (b : Bird) (rand : ℚ) (today : String)
    (hb : w.bird = some b) :
    ∃ w1 : World, updateGame w rand today = some w1 ∧
      w1.bird = some (tickBird b) ∧
      w1.pipes = nextPipes b.x w.pipes rand ∧
      w1.gameState.score =
        w.gameState.score + ((w.pipes.filter (makesTransition b.x)).length : Int) := by
  unfold updateGame
  rw [hb]
  simp only [updatePipes_eq]
  have hn : (if wantsNewPipe (advancePipes b.x w.pipes) = true then
      advancePipes b.x w.pipes ++ [createPipe gameWidth rand]
      else advancePipes b.x w.pipes) = nextPipes b.x w.pipes rand := rfl
  rw [hn]
  split
  · refine ⟨_, rfl, ?_, ?_, ?_⟩
    · rw [(endGame_fields _ today).1]
      rfl
    · rw [(endGame_fields _ today).2.1]
    · rw [(endGame_fields _ today).2.2]
  · exact ⟨_, rfl, rfl, rfl, rfl⟩

theorem run_ticks (ticks : List (ℚ × String)) :
    ∀ (w : World) (b : Bird), w.bird = some b →
      ∃ (w1 : World) (b1 : Bird), run w (ticks.map toTick) = some w1 ∧ w1.bird = some b1 ∧
        b1.x = b.x ∧ b1.size = b.size ∧
        b1.velocity = b.velocity + (ticks.length : ℚ) / 2 ∧
        b1.y = b.y + (ticks.length : ℚ) * b.velocity +
          (ticks.length : ℚ) * ((ticks.length : ℚ) + 1) / 4 := by
  induction ticks with
  | nil =>
    intro w b hb
    exact ⟨w, b, rfl, hb, rfl, rfl, by simp, by simp⟩
  | cons t rest ih =>
    intro w b hb
    obtain ⟨w1, hrun, hbird, -, -⟩ := updateGame_some w b t.1 t.2 hb
    obtain ⟨w2, b2, hrun2, hbird2, hx, hsz, hv, hy⟩ := ih w1 (tickBird b) hbird
    refine ⟨w2, b2, ?_, hbird2, ?_, ?_, ?_, ?_⟩
    · simp only [List.map_cons, run, toTick, step, hrun]
      exact hrun2
    · rw [hx]; rfl
    · rw [hsz]; rfl
    · rw [hv]
      simp only [tickBird, gravity, List.length_cons]
      push_cast
      ring
    · rw [hy]
      simp only [tickBird, gravity, List.length_cons]
      push_cast
      ring

theorem run_flap_ticks (w : World) (b : Bird) (ticks : List (ℚ × String)) :
    ∃ (w1 : World) (b1 : Bird),
      run { w with bird := some b } (Action.flap :: ticks.map toTick) = some w1 ∧
      w1.bird = some b1 ∧
      b1.velocity = -8 + (ticks.length : ℚ) / 2 ∧
      b1.y = b.y - 8 * (ticks.length : ℚ) +
        (ticks.length : ℚ) * ((ticks.length : ℚ) + 1) / 4 := by
  obtain ⟨w1, b1, hrun, hbird, -, -, hv, hy⟩ :=
    run_ticks ticks { w with bird := some { b with velocity := flapStrength } }
      { b with velocity := flapStrength } rfl
  refine ⟨w1, b1, ?_, hbird, ?_, ?_⟩
  · simp only [run, step, flapBird]
    exact hrun
  · rw [hv]; simp [flapStrength]
  · rw [hy]; simp only [flapStrength]; ring

/-- Claim C6: for every bird state, one `updateGame` tick sets
`velocity' = velocity + 0.5` (the gravity constant), then
`y' = y + velocity'` (the position integrates the already updated velocity),
and leaves the bird's `x` and `size` unchanged. -/
theorem updateGame_bird (w : World) (b : Bird) (rand : ℚ) (today : String) :
    gravity = 1 / 2 ∧
    ∃ w1 : World, updateGame { w with bird := some b } rand today = some w1 ∧
      w1.bird = some
        { x := b.x, y := b.y + (b.velocity + 1 / 2), velocity := b.velocity + 1 / 2,
          size := b.size } := by
  obtain ⟨w1, hrun, hbird, -, -⟩ :=
    updateGame_some { w with bird := some b } b rand today rfl
  exact ⟨rfl, w1, hrun, hbird⟩

/-! ## The pipe list during play -/

theorem wantsNewPipe_cases (pipes : List Pipe) (h : wantsNewPipe pipes = true) :
    pipes = [] ∨ ∃ (front : List Pipe) (l : Pipe), pipes = front ++ [l] ∧ l.x < 500 := by
  rcases List.eq_nil_or_concat' pipes with rfl | ⟨front, l, rfl⟩
  · exact Or.inl rfl
  · right
    refine ⟨front, l, rfl, ?_⟩
    unfold wantsNewPipe at h
    have hidx : (front ++ [l]).length - 1 = front.length := by simp
    rw [hidx, List.getElem?_concat_length] at h
    have hne : ((front ++ [l]).length == 0) = false := by simp
    rw [hne] at h
    simp only [Bool.false_or, decide_eq_true_eq, gameWidth] at h
    linarith

theorem wantsNewPipe_nil : wantsNewPipe [] = true := rfl

theorem length_le_two_of_bounded (pipes : List Pipe)
    (hp : pipes.Pairwise (fun p q => p.x + 300 ≤ q.x))
    (hlo : ∀ p ∈ pipes, -60 ≤ p.x) (m : ℚ) (hm : m < 500)
    (hhi : ∀ p ∈ pipes, p.x ≤ m) : pipes.length ≤ 2 := by
  rcases pipes with _ | ⟨a, _ | ⟨b, _ | ⟨c, rest⟩⟩⟩
  · simp
  · simp
  · simp
  · exfalso
    rw [List.pairwise_cons, List.pairwise_cons] at hp
    have h1 := hp.1 b (by simp)
    have h2 := hp.2.1 c (by simp)
    have h3 := hlo a (by simp)
    have h4 := hhi c (by simp)
    linarith

theorem pipesInv_initial (r0 r1 r2 : ℚ) : PipesInv (generateInitialPipes [] r0 r1 r2) := by
  unfold PipesInv generateInitialPipes createPipe
  refine ⟨?_, ?_, by simp, by simp⟩
  · simp [gameWidth]
    norm_num
  · intro p hp
    simp at hp
    rcases hp with rfl | rfl | rfl <;> simp [gameWidth, pipeWidth] <;> norm_num

theorem pipesInv_advancePipes (bx : ℚ) (pipes : List Pipe) (h : PipesInv pipes) :
    (advancePipes bx pipes).Pairwise (fun p q => p.x + 300 ≤ q.x) ∧
    (∀ p ∈ advancePipes bx pipes, p.width = 60 ∧ -60 ≤ p.x) ∧
    (advancePipes bx pipes).length ≤ 3 := by
  obtain ⟨hp, hw, -, hlen⟩ := h
  unfold advancePipes
  refine ⟨?_, ?_, ?_⟩
  · apply List.Pairwise.filter
    rw [List.pairwise_map]
    refine hp.imp ?_
    intro p q hpq
    simp only [advancePipe]
    linarith
  · intro p hmem
    rw [List.mem_filter, List.mem_map] at hmem
    obtain ⟨⟨q, hq, rfl⟩, hoff⟩ := hmem
    have hq60 := (hw q hq).1
    simp only [offScreen, advancePipe, Bool.not_eq_true', decide_eq_false_iff_not, not_lt]
      at hoff
    simp only [advancePipe]
    refine ⟨hq60, ?_⟩
    rw [hq60] at hoff
    linarith
  · calc ((pipes.map (advancePipe bx)).filter (fun p => !offScreen p)).length
        ≤ (pipes.map (advancePipe bx)).length := List.length_filter_le _ _
      _ = pipes.length := List.length_map _ _
      _ ≤ 3 := hlen

theorem pipesInv_nextPipes (bx : ℚ) (pipes : List Pipe) (rand : ℚ) (h : PipesInv pipes) :
    PipesInv (nextPipes bx pipes rand) := by
  obtain ⟨hp, hw, hlen⟩ := pipesInv_advancePipes bx pipes h
  unfold nextPipes
  by_cases hwant : wantsNewPipe (advancePipes bx pipes) = true
  · rw [if_pos hwant]
    have hnew : (createPipe gameWidth rand).width = 60 ∧ (createPipe gameWidth rand).x = 800 :=
      ⟨rfl, rfl⟩
    rcases wantsNewPipe_cases _ hwant with hnil | ⟨front, l, hfl, hl⟩
    · rw [hnil]
      refine ⟨by simp, ?_, by simp, by simp⟩
      intro p hmem
      simp only [List.nil_append, List.mem_singleton] at hmem
      rw [hmem, hnew.1, hnew.2]
      norm_num
    · have hle : ∀ p ∈ advancePipes bx pipes, p.x ≤ l.x := by
        intro p hmem
        rw [hfl] at hmem hp
        rw [List.pairwise_append] at hp
        rcases List.mem_append.1 hmem with hf | hs
        · have := hp.2.2 p hf l (List.mem_singleton_self l)
          linarith
        · rw [List.mem_singleton.1 hs]
      have h2 := length_le_two_of_bounded _ hp (fun p hmem => (hw p hmem).2) l.x hl hle
      refine ⟨?_, ?_, by simp, ?_⟩
      · rw [List.pairwise_append]
        refine ⟨hp, by simp, ?_⟩
        intro p hmem q hq
        rw [List.mem_singleton.1 hq, hnew.2]
        have := hle p hmem
        linarith
      · intro p hmem
        rcases List.mem_append.1 hmem with hf | hs
        · exact hw p hf
        · rw [List.mem_singleton.1 hs, hnew.1, hnew.2]
          norm_num
      · rw [List.length_append, List.length_singleton]
        omega
  · rw [if_neg hwant]
    refine ⟨hp, hw, ?_, hlen⟩
    intro hnil
    rw [hnil] at hwant
    exact hwant wantsNewPipe_nil

theorem run_pipesInv (acts : List Action) :
    ∀ (w : World) (b : Bird), w.bird = some b → PipesInv w.pipes →
      ∃ (w1 : World) (b1 : Bird), run w acts = some w1 ∧ w1.bird = some b1 ∧
        PipesInv w1.pipes := by
  induction acts with
  | nil =>
    intro w b hb hinv
    exact ⟨w, b, rfl, hb, hinv⟩
  | cons a rest ih =>
    intro w b hb hinv
    cases a with
    | tick rand today =>
      obtain ⟨w1, hrun, hbird, hpipes, -⟩ := updateGame_some w b rand today hb
      have hinv1 : PipesInv w1.pipes := by
        rw [hpipes]
        exact pipesInv_nextPipes b.x w.pipes rand hinv
      obtain ⟨w2, b2, hrun2, hbird2, hinv2⟩ := ih w1 (tickBird b) hbird hinv1
      refine ⟨w2, b2, ?_, hbird2, hinv2⟩
      simp only [run, step, hrun]
      exact hrun2
    | flap =>
      obtain ⟨w2, b2, hrun2, hbird2, hinv2⟩ :=
        ih { w with bird := flapBird w.bird } { b with velocity := flapStrength }
          (by simp [hb, flapBird]) hinv
      refine ⟨w2, b2, ?_, hbird2, hinv2⟩
      simp only [run, step]
      exact hrun2

/-! ## Flap -/

/-- Claim C7: `flapBird` is an idempotent overwrite: it sets the velocity to
`flapStrength = -8` whatever the velocity was, leaves `x`, `y` and `size`
unchanged, and applying it two or more times in a row gives the same state as
applying it once. -/
theorem flapBird_idempotent_overwrite :
    flapStrength = -8 ∧
    (∀ b : Bird, flapBird (some b) =
      some { x := b.x, y := b.y, velocity := -8, size := b.size }) ∧
    (∀ ob : Option Bird, flapBird (flapBird ob) = flapBird ob) ∧
    (∀ (n : Nat) (ob : Option Bird), flapBird^[n + 1] ob = flapBird ob) := by
  have hidem : ∀ ob : Option Bird, flapBird (flapBird ob) = flapBird ob := by
    intro ob
    cases ob <;> rfl
  refine ⟨rfl, fun b => rfl, hidem, ?_⟩
  intro n
  induction n with
  | zero => intro ob; rfl
  | succ n ih =>
    intro ob
    rw [Function.iterate_succ_apply, ih, hidem]

/-- Claim C8, counterexample: from the reset bird at `y = 300`, a flap
followed by one un-flapped tick leaves the bird at `y = 292.5`; the first
tick moves it by 7.5, not by 8. -/
theorem first_tick_after_flap_moves_seven_and_a_half :
    ((run (resetGame initialWorld 0 0 0) [Action.flap, Action.tick 0 ""]).bind
        (fun w1 => w1.bird)).map (fun b1 => b1.y) = some (300 - 15 / 2) ∧
    ((run (resetGame initialWorld 0 0 0) [Action.flap, Action.tick 0 ""]).bind
        (fun w1 => w1.bird)).map (fun b1 => b1.y) ≠ some (300 - 8) := by
  obtain ⟨w1, b1, hrun, hbird, -, hy⟩ :=
    run_flap_ticks (resetGame initialWorld 0 0 0) resetBird [((0 : ℚ), "")]
  have hw : ({ resetGame initialWorld 0 0 0 with bird := some resetBird } : World) =
      resetGame initialWorld 0 0 0 := rfl
  rw [hw] at hrun
  have hmap : [((0 : ℚ), "")].map toTick = [Action.tick 0 ""] := rfl
  rw [hmap] at hrun
  have hy1 : b1.y = 300 - 15 / 2 := by
    rw [hy]
    simp only [resetBird, birdStartY, List.length_singleton]
    norm_num
  have hval : ((run (resetGame initialWorld 0 0 0) [Action.flap, Action.tick 0 ""]).bind
      (fun w1 => w1.bird)).map (fun b1 => b1.y) = some (300 - 15 / 2) := by
    rw [hrun]
    simp [hbird, hy1]
  refine ⟨hval, ?_⟩
  rw [hval]
  norm_num

/-- Claim C8, amended: with `gravity = 0.5` and `flapStrength = -8`, after a
flap at tick 0 the velocity is `-8`, and the `k`-th following un-flapped
`updateGame` tick (`k = 1, 2, ...`) changes the bird's `y` by `-8 + 0.5 k`:
by `-7.5` on the first tick, then `-7.0`, `-6.5`, ..., each displacement 0.5
greater than the previous one; the displacement is negative for the first 15
ticks, zero on the 16th and positive from the 17th on.  Here `ticks` are the
`k - 1` ticks already run and `t` is the `k`-th tick. -/
theorem flight_after_flap (w : World) (b : Bird) (ticks : List (ℚ × String))
    (t : ℚ × String) :
    ∃ (w1 : World) (b1 : Bird) (w2 : World) (b2 : Bird),
      run { w with bird := some b } (Action.flap :: ticks.map toTick) = some w1 ∧
      w1.bird = some b1 ∧
      run { w with bird := some b } (Action.flap :: (ticks ++ [t]).map toTick) = some w2 ∧
      w2.bird = some b2 ∧
      b1.velocity = -8 + (ticks.length : ℚ) / 2 ∧
      b2.y - b1.y = -8 + ((ticks.length : ℚ) + 1) / 2 ∧
      (b2.y - b1.y < 0 ↔ ticks.length + 1 < 16) ∧
      (b2.y - b1.y = 0 ↔ ticks.length + 1 = 16) ∧
      (0 < b2.y - b1.y ↔ 16 < ticks.length + 1) := by
  obtain ⟨w1, b1, hrun1, hbird1, hv1, hy1⟩ := run_flap_ticks w b ticks
  obtain ⟨w2, b2, hrun2, hbird2, -, hy2⟩ := run_flap_ticks w b (ticks ++ [t])
  have hd : b2.y - b1.y = -8 + ((ticks.length : ℚ) + 1) / 2 := by
    rw [hy1, hy2]
    simp only [List.length_append, List.length_singleton]
    push_cast
    ring
  refine ⟨w1, b1, w2, b2, hrun1, hbird1, hrun2, hbird2, hv1, hd, ?_, ?_, ?_⟩
  · rw [hd]
    constructor
    · intro h
      have h2 : ((ticks.length : ℚ) + 1) < 16 := by linarith
      exact_mod_cast h2
    · intro h
      have h2 : ((ticks.length : ℚ) + 1) < 16 := by exact_mod_cast h
      linarith
  · rw [hd]
    constructor
    · intro h
      have h2 : ((ticks.length : ℚ) + 1) = 16 := by linarith
      exact_mod_cast h2
    · intro h
      have h2 : ((ticks.length : ℚ) + 1) = 16 := by exact_mod_cast h
      linarith
  · rw [hd]
    constructor
    · intro h
      have h2 : (16 : ℚ) < (ticks.length : ℚ) + 1 := by linarith
      exact_mod_cast h2
    · intro h
      have h2 : (16 : ℚ) < (ticks.length : ℚ) + 1 := by exact_mod_cast h
      linarith

/-- Claim C9: in one `updateGame` tick a pipe's `passed` flag goes from
`false` to `true` exactly when, after the pipe has been advanced,
`pipe.x + pipe.width < bird.x`; the score increases by exactly the number of
pipes making that transition (so it never decreases); a pipe whose flag is
already `true` keeps it and is not scored again.  The pipes after the tick are
the advanced old pipes that are still on screen, in order, and possibly one
new pipe. -/
theorem updateGame_scoring (w : World) (b : Bird) (rand : ℚ) (today : String) :
    (∀ p : Pipe,
      (advancePipe b.x p).x = p.x - 2 ∧ (advancePipe b.x p).width = p.width ∧
      ((advancePipe b.x p).passed = true ↔
        p.passed = true ∨ (advancePipe b.x p).x + (advancePipe b.x p).width < b.x) ∧
      (makesTransition b.x p = true ↔
        p.passed = false ∧ (advancePipe b.x p).passed = true) ∧
      (makesTransition b.x p = true ↔
        p.passed = false ∧ (advancePipe b.x p).x + (advancePipe b.x p).width < b.x) ∧
      (p.passed = true →
        (advancePipe b.x p).passed = true ∧ makesTransition b.x p = false)) ∧
    ∃ w1 : World, updateGame { w with bird := some b } rand today = some w1 ∧
      w1.pipes =
        (w.pipes.map (advancePipe b.x)).filter (fun p => !offScreen p) ++
          (if wantsNewPipe ((w.pipes.map (advancePipe b.x)).filter (fun p => !offScreen p))
            then [createPipe 800 rand] else []) ∧
      (createPipe 800 rand).passed = false ∧
      w1.gameState.score =
        w.gameState.score + ((w.pipes.filter (makesTransition b.x)).length : Int) ∧
      w.gameState.score ≤ w1.gameState.score := by
  constructor
  · intro p
    have hx : (advancePipe b.x p).x = p.x - 2 := rfl
    have hwd : (advancePipe b.x p).width = p.width := rfl
    have hpass : (advancePipe b.x p).passed = (p.passed || crossesBird b.x p) := rfl
    have hcross : crossesBird b.x p = true ↔ p.x - 2 + p.width < b.x := by
      simp [crossesBird, pipeSpeed]
    refine ⟨hx, hwd, ?_, ?_, ?_, ?_⟩
    · rw [hpass, hx, hwd, ← hcross]
      simp
    · rw [hpass]
      unfold makesTransition
      cases p.passed <;> simp
    · rw [hx, hwd, ← hcross]
      unfold makesTransition
      cases p.passed <;> simp
    · intro h
      rw [hpass]
      unfold makesTransition
      simp [h]
  · obtain ⟨w1, hrun, -, hpipes, hscore⟩ :=
      updateGame_some { w with bird := some b } b rand today rfl
    refine ⟨w1, hrun, ?_, rfl, hscore, ?_⟩
    · rw [hpipes]
      unfold nextPipes advancePipes
      split
      · rfl
      · simp
    · rw [hscore]
      have : (0 : Int) ≤ ((w.pipes.filter (makesTransition b.x)).length : Int) :=
        Int.natCast_nonneg _
      exact le_add_of_nonneg_right this

theorem updateGame_scoring_witness :
    passedPipe.passed = true ∧
    (advancePipe resetBird.x passedPipe).passed = true ∧
    makesTransition resetBird.x passedPipe = false :=
  ⟨rfl, ((updateGame_scoring initialWorld resetBird 0 "").1 passedPipe).2.2.2.2.2 rfl⟩

/-- Claim C10: in every state reached from `resetGame` by any sequence of
`updateGame` ticks (with any random gap draws) interleaved with any flaps, the
pipe list is never empty and never holds more than 4 pipes. -/
theorem pipes_count_bounded (w : World) (r0 r1 r2 : ℚ) (acts : List Action) :
    ∃ w1 : World, run (resetGame w r0 r1 r2) acts = some w1 ∧
      w1.pipes ≠ [] ∧ w1.pipes.length ≤ 4 := by
  obtain ⟨w1, -, hrun, -, hinv⟩ :=
    run_pipesInv acts (resetGame w r0 r1 r2) resetBird rfl (pipesInv_initial r0 r1 r2)
  exact ⟨w1, hrun, hinv.2.2.1, le_trans hinv.2.2.2 (by decide)⟩

/-! ## Pipe lifecycle -/

theorem wantsNewPipe_eq_newPipeDue (pipes : List Pipe) :
    wantsNewPipe pipes = newPipeDue pipes := by
  rcases List.eq_nil_or_concat' pipes with rfl | ⟨front, l, rfl⟩
  · rfl
  · unfold wantsNewPipe newPipeDue
    have hidx : (front ++ [l]).length - 1 = front.length := by simp
    rw [hidx, List.getElem?_concat_length, List.getLast?_concat]
    simp

theorem advancePipes_eq_map (bx : ℚ) (pipes : List Pipe) :
    advancePipes bx pipes =
      (pipes.filter (fun p => !decide ((movePipe p).x + (movePipe p).width < 0))).map
        (advancePipe bx) := by
  unfold advancePipes
  rw [List.filter_map]
  rfl

theorem survivingPipes_eq_map (pipes : List Pipe) :
    survivingPipes pipes =
      (pipes.filter (fun p => !decide ((movePipe p).x + (movePipe p).width < 0))).map
        movePipe := by
  unfold survivingPipes
  rw [List.filter_map]
  rfl

theorem advancePipes_eq_survivingPipes (bx : ℚ) (pipes : List Pipe) :
    advancePipes bx pipes = survivingPipes (pipes.map (markPassed bx)) := by
  unfold advancePipes survivingPipes
  rw [List.map_map]
  rfl

theorem nextPipes_eq_pipesAfterTick (bx : ℚ) (pipes : List Pipe) (rand : ℚ) :
    nextPipes bx pipes rand = pipesAfterTick (pipes.map (markPassed bx)) rand := by
  unfold nextPipes pipesAfterTick
  rw [wantsNewPipe_eq_newPipeDue, advancePipes_eq_survivingPipes]
  split <;> simp

theorem newPipeDue_map (f g : Pipe → Pipe) (hfg : ∀ p, (f p).x = (g p).x)
    (pipes : List Pipe) : newPipeDue (pipes.map f) = newPipeDue (pipes.map g) := by
  unfold newPipeDue
  rw [List.getLast?_map, List.getLast?_map]
  cases pipes.getLast? with
  | none => rfl
  | some p => simp [hfg]

theorem survivingPipes_markPassed (bx : ℚ) (pipes : List Pipe) :
    survivingPipes (pipes.map (markPassed bx)) =
      (pipes.filter (fun p => !decide ((movePipe p).x + (movePipe p).width < 0))).map
        (fun p => movePipe (markPassed bx p)) := by
  rw [survivingPipes_eq_map, List.filter_map, List.map_map]
  rfl

theorem pipesAfterTick_withoutFlag (bx : ℚ) (pipes : List Pipe) (rand : ℚ) :
    (pipesAfterTick (pipes.map (markPassed bx)) rand).map withoutFlag =
      (pipesAfterTick pipes rand).map withoutFlag := by
  unfold pipesAfterTick
  rw [survivingPipes_markPassed, survivingPipes_eq_map pipes,
    newPipeDue_map (fun p => movePipe (markPassed bx p)) movePipe (fun _ => rfl)]
  simp only [List.map_append, List.map_map]
  rfl

theorem markPassed_eq_self (bx : ℚ) (p : Pipe) (h : makesTransition bx p = false) :
    markPassed bx p = p := by
  have hflag : (p.passed || crossesBird bx p) = p.passed := by
    unfold makesTransition at h
    cases hp : p.passed <;> cases hc : crossesBird bx p <;> simp_all
  unfold markPassed
  rw [hflag]

/-- Claim C11: the pipe list after one `updateGame` tick is the old list with
every pipe's `x` reduced by `pipeSpeed = 2`, the pipes with `x + width < 0`
after the move removed and the order of the survivors kept, followed by
exactly one new pipe at `x = gameWidth = 800` if the surviving list is empty
or its last pipe has `x < gameWidth - 300 = 500`, and by no new pipe
otherwise: the backwards splice loop equals this map, filter and append.  The
only other change to a pipe is its `passed` flag (the scoring step): the
equality holds exactly for the old list with the flags brought up to date,
holds for the old list itself up to the flags, and holds exactly for the old
list itself when no pipe is scored in the tick. -/
theorem updateGame_pipes (w : World) (b : Bird) (rand : ℚ) (today : String) :
    pipeSpeed = 2 ∧ gameWidth = 800 ∧ gameWidth - 300 = 500 ∧
    (∀ p : Pipe, (∀ bx : ℚ, withoutFlag (markPassed bx p) = withoutFlag p) ∧
      movePipe p = { p with x := p.x - 2 }) ∧
    ∃ w1 : World, updateGame { w with bird := some b } rand today = some w1 ∧
      w1.pipes = pipesAfterTick (w.pipes.map (markPassed b.x)) rand ∧
      w1.pipes.map withoutFlag = (pipesAfterTick w.pipes rand).map withoutFlag ∧
      ((∀ p ∈ w.pipes, makesTransition b.x p = false) →
        w1.pipes = pipesAfterTick w.pipes rand) := by
  refine ⟨rfl, rfl, by norm_num [gameWidth], fun p => ⟨fun bx => rfl, rfl⟩, ?_⟩
  obtain ⟨w1, hrun, -, hpipes, -⟩ :=
    updateGame_some { w with bird := some b } b rand today rfl
  have hexact : w1.pipes = pipesAfterTick (w.pipes.map (markPassed b.x)) rand := by
    rw [hpipes]
    exact nextPipes_eq_pipesAfterTick b.x w.pipes rand
  refine ⟨w1, hrun, hexact, ?_, ?_⟩
  · rw [hexact]
    exact pipesAfterTick_withoutFlag b.x w.pipes rand
  · intro hno
    rw [hexact]
    congr 1
    conv_rhs => rw [← List.map_id w.pipes]
    apply List.map_congr_left
    intro p hp
    exact markPassed_eq_self b.x p (hno p hp)

theorem updateGame_pipes_witness :
    (∀ p ∈ (resetGame initialWorld 0 0 0).pipes, makesTransition resetBird.x p = false) ∧
    ∃ w1 : World,
      updateGame { resetGame initialWorld 0 0 0 with bird := some resetBird } 0 "" = some w1 ∧
      w1.pipes = pipesAfterTick (resetGame initialWorld 0 0 0).pipes 0 :=
  have hno : ∀ p ∈ (resetGame initialWorld 0 0 0).pipes,
      makesTransition resetBird.x p = false := by
    intro p hp
    simp only [resetGame, generateInitialPipes, createPipe, List.nil_append, List.cons_append,
      List.mem_cons, List.mem_singleton, List.not_mem_nil, or_false] at hp
    rcases hp with rfl | rfl | rfl <;>
      simp [makesTransition, crossesBird, resetBird, birdStartX, gameWidth, pipeSpeed,
        pipeWidth] <;> norm_num
  match (updateGame_pipes (resetGame initialWorld 0 0 0) resetBird 0 "").2.2.2.2 with
  | ⟨w1, hrun, _, _, hcond⟩ => ⟨hno, w1, hrun, hcond hno⟩

theorem advancePipes_head_only (bx : ℚ) (pipes : List Pipe) (h : PipesInv pipes) :
    advancePipes bx pipes = pipes.map (advancePipe bx) ∨
      advancePipes bx pipes = pipes.tail.map (advancePipe bx) := by
  obtain ⟨hp, hw, hne, -⟩ := h
  cases pipes with
  | nil => exact absurd rfl hne
  | cons a rest =>
    rw [List.pairwise_cons] at hp
    have hrest : (rest.map (advancePipe bx)).filter (fun p => !offScreen p) =
        rest.map (advancePipe bx) := by
      rw [List.filter_eq_self]
      intro q hq
      obtain ⟨q0, hq0, rfl⟩ := List.mem_map.1 hq
      have h1 := hp.1 q0 hq0
      have h2 := (hw a (List.mem_cons_self a rest)).2
      have h3 := (hw q0 (List.mem_cons_of_mem a hq0)).1
      simp only [offScreen, advancePipe, pipeSpeed, Bool.not_eq_true', decide_eq_false_iff_not,
        not_lt]
      rw [h3]
      linarith
    unfold advancePipes
    rw [List.map_cons, List.tail_cons]
    by_cases hoff : offScreen (advancePipe bx a) = true
    · right
      rw [List.filter_cons_of_neg (by simp [hoff]), hrest]
    · left
      rw [List.filter_cons_of_pos (by simpa using hoff), hrest]

/-- Claim C12: in every state reached from `resetGame` by `updateGame` ticks
(and flaps) the pipe list is strictly ascending in `x` with consecutive pipes
at least 300 apart; consequently the next tick removes at most one pipe, a
removed pipe is the head of the list, and a new pipe is added only at the
tail: the list after the tick is the advanced old list, or the advanced old
list without its head, followed by nothing or by the one new pipe. -/
theorem pipes_ascending_fifo (w : World) (r0 r1 r2 : ℚ) (acts : List Action) :
    ∃ (w1 : World) (b1 : Bird), run (resetGame w r0 r1 r2) acts = some w1 ∧
      w1.bird = some b1 ∧
      w1.pipes.Pairwise (fun p q => p.x < q.x) ∧
      w1.pipes.Pairwise (fun p q => p.x + 300 ≤ q.x) ∧
      w1.pipes.Chain' (fun p q => p.x + 300 ≤ q.x) ∧
      ∀ (rand : ℚ) (today : String), ∃ (w2 : World) (kept added : List Pipe),
        updateGame w1 rand today = some w2 ∧
        w2.pipes = kept.map (advancePipe b1.x) ++ added ∧
        (kept = w1.pipes ∨ kept = w1.pipes.tail) ∧
        (added = [] ∨ added = [createPipe 800 rand]) := by
  obtain ⟨w1, b1, hrun, hbird, hinv⟩ :=
    run_pipesInv acts (resetGame w r0 r1 r2) resetBird rfl (pipesInv_initial r0 r1 r2)
  refine ⟨w1, b1, hrun, hbird, ?_, hinv.1, hinv.1.chain', ?_⟩
  · refine hinv.1.imp ?_
    intro p q hpq
    linarith
  · intro rand today
    obtain ⟨w2, hrun2, -, hpipes, -⟩ := updateGame_some w1 b1 rand today hbird
    have hnext : ∃ added : List Pipe,
        nextPipes b1.x w1.pipes rand = advancePipes b1.x w1.pipes ++ added ∧
          (added = [] ∨ added = [createPipe 800 rand]) := by
      unfold nextPipes
      split
      · exact ⟨[createPipe 800 rand], rfl, Or.inr rfl⟩
      · exact ⟨[], by simp, Or.inl rfl⟩
    obtain ⟨added, hadded, hcases⟩ := hnext
    rcases advancePipes_head_only b1.x w1.pipes hinv with hall | htail
    · exact ⟨w2, w1.pipes, added, hrun2, by rw [hpipes, hadded, hall], Or.inl rfl, hcases⟩
    · exact ⟨w2, w1.pipes.tail, added, hrun2, by rw [hpipes, hadded, htail], Or.inr rfl,
        hcases⟩

/-! ## Rounding lemmas -/

theorem roundHalfEven_bounds (q : ℚ) :
    q - 1 / 2 ≤ (roundHalfEven q : ℚ) ∧ (roundHalfEven q : ℚ) ≤ q + 1 / 2 := by
  have h1 := Int.floor_le q
  have h2 := Int.lt_floor_add_one q
  unfold roundHalfEven
  split_ifs with ha hb hc
  · constructor <;> linarith
  · push_cast
    constructor <;> linarith
  · constructor <;> linarith
  · push_cast
    constructor <;> linarith

theorem roundHalfEven_mono (p q : ℚ) (h : p ≤ q) : roundHalfEven p ≤ roundHalfEven q := by
  by_contra hlt
  have hlt1 : roundHalfEven q + 1 ≤ roundHalfEven p := by omega
  have hc : ((roundHalfEven q : ℤ) : ℚ) + 1 ≤ (roundHalfEven p : ℚ) := by exact_mod_cast hlt1
  have hp := (roundHalfEven_bounds p).2
  have hq := (roundHalfEven_bounds q).1
  have hpq : p = q := by linarith
  rw [hpq] at hlt
  exact hlt (le_refl _)

theorem roundHalfEven_intCast (n : ℤ) : roundHalfEven (n : ℚ) = n := by
  have h1 := (roundHalfEven_bounds (n : ℚ)).1
  have h2 := (roundHalfEven_bounds (n : ℚ)).2
  have h3 : ((n : ℤ) : ℚ) - 1 < (roundHalfEven (n : ℚ) : ℚ) := by linarith
  have h4 : (roundHalfEven (n : ℚ) : ℚ) < ((n : ℤ) : ℚ) + 1 := by linarith
  have h5 : n - 1 < roundHalfEven (n : ℚ) := by exact_mod_cast h3
  have h6 : roundHalfEven (n : ℚ) < n + 1 := by exact_mod_cast h4
  omega

theorem roundHalfEven_eq_of_lt (q : ℚ) (n : ℤ) (h1 : (n : ℚ) - 1 / 2 < q)
    (h2 : q < (n : ℚ) + 1 / 2) : roundHalfEven q = n := by
  have hb1 := (roundHalfEven_bounds q).1
  have hb2 := (roundHalfEven_bounds q).2
  have h3 : ((n : ℤ) : ℚ) - 1 < (roundHalfEven q : ℚ) := by linarith
  have h4 : (roundHalfEven q : ℚ) < ((n : ℤ) : ℚ) + 1 := by linarith
  have h5 : n - 1 < roundHalfEven q := by exact_mod_cast h3
  have h6 : roundHalfEven q < n + 1 := by exact_mod_cast h4
  omega

theorem roundHalfEven_tie_even (n : ℤ) (h : n % 2 = 0) :
    roundHalfEven ((n : ℚ) - 1 / 2) = n := by
  have hfloor : ⌊(n : ℚ) - 1 / 2⌋ = n - 1 := by
    rw [Int.floor_eq_iff]
    push_cast
    constructor <;> linarith
  unfold roundHalfEven
  rw [hfloor]
  push_cast
  have e : (n : ℚ) - 1 / 2 - ((n : ℚ) - 1) = 1 / 2 := by ring
  rw [e]
  simp only [lt_self_iff_false, if_false]
  have hodd : ¬ (n - 1) % 2 = 0 := by omega
  rw [if_neg hodd]
  ring

theorem pow53_mul_zpow (z : ℤ) :
    (((2 : ℤ) ^ 53 : ℤ) : ℚ) * (2 : ℚ) ^ (z - 52) = (2 : ℚ) ^ (z + 1) := by
  have h : (2 : ℚ) ^ (z + 1) = (2 : ℚ) ^ (53 : ℤ) * (2 : ℚ) ^ (z - 52) := by
    rw [← zpow_add₀ (by norm_num : (2 : ℚ) ≠ 0)]
    congr 1
    ring
  rw [h]
  norm_num

theorem pow52_mul_zpow (z : ℤ) :
    (((2 : ℤ) ^ 52 : ℤ) : ℚ) * (2 : ℚ) ^ (z - 52) = (2 : ℚ) ^ z := by
  have h : (2 : ℚ) ^ z = (2 : ℚ) ^ (52 : ℤ) * (2 : ℚ) ^ (z - 52) := by
    rw [← zpow_add₀ (by norm_num : (2 : ℚ) ≠ 0)]
    congr 1
    ring
  rw [h]
  norm_num

theorem ulp_pos (x : ℚ) : 0 < ulp x := by
  unfold ulp
  exact zpow_pos (by norm_num) _

theorem lt_zpow_binade_succ (x : ℚ) (hx : 0 < x) : x < (2 : ℚ) ^ (binade x + 1) := by
  have h := Int.lt_zpow_succ_log_self (b := 2) (by norm_num) x
  have hle : Int.log 2 x + 1 ≤ binade x + 1 := by
    unfold binade
    rw [abs_of_pos hx]
    have := le_max_left (Int.log 2 x) (-1022)
    omega
  have h2 : ((2 : ℕ) : ℚ) ^ (Int.log 2 x + 1) ≤ (2 : ℚ) ^ (binade x + 1) := by
    push_cast
    exact zpow_le_zpow_right₀ (by norm_num) hle
  exact lt_of_lt_of_le h h2

theorem binade_mono (x y : ℚ) (hx : 0 < x) (h : x ≤ y) : binade x ≤ binade y := by
  unfold binade
  rw [abs_of_pos hx, abs_of_pos (lt_of_lt_of_le hx h)]
  exact max_le_max (Int.log_mono_right hx h) (le_refl _)

theorem zpow_binade_le (x y : ℚ) (h : binade x < binade y) (hy : 0 < y) :
    (2 : ℚ) ^ binade y ≤ y := by
  have hb : binade y = Int.log 2 y := by
    unfold binade at h ⊢
    rw [abs_of_pos hy] at h ⊢
    have := le_max_right (Int.log 2 |x|) (-1022)
    rcases max_choice (Int.log 2 y) (-1022) with hm | hm
    · exact hm
    · rw [hm] at h
      omega
  rw [hb]
  have := Int.zpow_log_le_self (b := 2) (r := y) (by norm_num) hy
  exact_mod_cast this

theorem binade_eq (x : ℚ) (e : ℤ) (he : -1022 ≤ e) (hlo : (2 : ℚ) ^ e ≤ x)
    (hhi : x < (2 : ℚ) ^ (e + 1)) : binade x = e := by
  have hx : 0 < x := lt_of_lt_of_le (zpow_pos (by norm_num) _) hlo
  have h1 : e ≤ Int.log 2 x := by
    rw [← Int.zpow_le_iff_le_log (by norm_num) hx]
    exact_mod_cast hlo
  have h2 : Int.log 2 x < e + 1 := by
    rw [← Int.lt_zpow_iff_log_lt (by norm_num) hx]
    exact_mod_cast hhi
  unfold binade
  rw [abs_of_pos hx]
  have : Int.log 2 x = e := by omega
  rw [this]
  exact max_eq_left he

theorem roundDouble_zero : roundDouble 0 = 0 := by
  unfold roundDouble
  rw [zero_div]
  have := roundHalfEven_intCast 0
  simp only [Int.cast_zero] at this
  rw [this]
  simp

theorem roundDouble_nonneg (x : ℚ) (hx : 0 ≤ x) : 0 ≤ roundDouble x := by
  unfold roundDouble
  have hq : (0 : ℚ) ≤ x / ulp x := div_nonneg hx (le_of_lt (ulp_pos x))
  have h0 : roundHalfEven ((0 : ℤ) : ℚ) ≤ roundHalfEven (x / ulp x) :=
    roundHalfEven_mono _ _ (by simpa using hq)
  rw [roundHalfEven_intCast] at h0
  have : (0 : ℚ) ≤ (roundHalfEven (x / ulp x) : ℚ) := by exact_mod_cast h0
  exact mul_nonneg this (le_of_lt (ulp_pos x))

theorem roundDouble_mono (x y : ℚ) (hx : 0 ≤ x) (h : x ≤ y) : roundDouble x ≤ roundDouble y := by
  rcases eq_or_lt_of_le hx with h0 | hpos
  · rw [← h0, roundDouble_zero]
    exact roundDouble_nonneg y (le_trans hx h)
  have hy : 0 < y := lt_of_lt_of_le hpos h
  rcases eq_or_lt_of_le (binade_mono x y hpos h) with heq | hlt
  · have hu : ulp x = ulp y := by
      unfold ulp
      rw [heq]
    unfold roundDouble
    rw [hu]
    have hq : x / ulp y ≤ y / ulp y := div_le_div_of_nonneg_right h (le_of_lt (ulp_pos y))
    have := roundHalfEven_mono _ _ hq
    have hc : (roundHalfEven (x / ulp y) : ℚ) ≤ (roundHalfEven (y / ulp y) : ℚ) := by
      exact_mod_cast this
    exact mul_le_mul_of_nonneg_right hc (le_of_lt (ulp_pos y))
  · -- different binades
    have hxu : roundDouble x ≤ (2 : ℚ) ^ (binade x + 1) := by
      unfold roundDouble
      have hq : x / ulp x ≤ (((2 : ℤ) ^ 53 : ℤ) : ℚ) := by
        rw [div_le_iff₀ (ulp_pos x)]
        have hlt := lt_zpow_binade_succ x hpos
        have e : (((2 : ℤ) ^ 53 : ℤ) : ℚ) * ulp x = (2 : ℚ) ^ (binade x + 1) :=
          pow53_mul_zpow (binade x)
        rw [e]
        exact le_of_lt hlt
      have hr := roundHalfEven_mono _ _ hq
      rw [roundHalfEven_intCast] at hr
      have hc : (roundHalfEven (x / ulp x) : ℚ) ≤ (((2 : ℤ) ^ 53 : ℤ) : ℚ) := by
        exact_mod_cast hr
      have e : (((2 : ℤ) ^ 53 : ℤ) : ℚ) * ulp x = (2 : ℚ) ^ (binade x + 1) :=
        pow53_mul_zpow (binade x)
      rw [← e]
      exact mul_le_mul_of_nonneg_right hc (le_of_lt (ulp_pos x))
    have hyl : (2 : ℚ) ^ binade y ≤ roundDouble y := by
      unfold roundDouble
      have hylo := zpow_binade_le x y hlt hy
      have e : (((2 : ℤ) ^ 52 : ℤ) : ℚ) * ulp y = (2 : ℚ) ^ binade y :=
        pow52_mul_zpow (binade y)
      have hq : (((2 : ℤ) ^ 52 : ℤ) : ℚ) ≤ y / ulp y := by
        rw [le_div_iff₀ (ulp_pos y), e]
        exact hylo
      have hr := roundHalfEven_mono _ _ hq
      rw [roundHalfEven_intCast] at hr
      have hc : (((2 : ℤ) ^ 52 : ℤ) : ℚ) ≤ (roundHalfEven (y / ulp y) : ℚ) := by
        exact_mod_cast hr
      rw [← e]
      exact mul_le_mul_of_nonneg_right hc (le_of_lt (ulp_pos y))
    have hmid : (2 : ℚ) ^ (binade x + 1) ≤ (2 : ℚ) ^ binade y :=
      zpow_le_zpow_right₀ (by norm_num) (by omega)
    linarith

theorem roundDouble_of_binade (x : ℚ) (e : ℤ) (he : -1022 ≤ e) (hlo : (2 : ℚ) ^ e ≤ x)
    (hhi : x < (2 : ℚ) ^ (e + 1)) :
    roundDouble x = (roundHalfEven (x / (2 : ℚ) ^ (e - 52)) : ℚ) * (2 : ℚ) ^ (e - 52) := by
  unfold roundDouble ulp
  rw [binade_eq x e he hlo hhi]

theorem roundDouble_eq_self (x : ℚ) (e : ℤ) (n : ℤ) (he : -1022 ≤ e) (hlo : (2 : ℚ) ^ e ≤ x)
    (hhi : x < (2 : ℚ) ^ (e + 1)) (hn : x = (n : ℚ) * (2 : ℚ) ^ (e - 52)) :
    roundDouble x = x := by
  rw [roundDouble_of_binade x e he hlo hhi]
  have hu : (0 : ℚ) < (2 : ℚ) ^ (e - 52) := zpow_pos (by norm_num) _
  have hq : x / (2 : ℚ) ^ (e - 52) = (n : ℚ) := by
    rw [hn]
    field_simp
  rw [hq, roundHalfEven_intCast]
  exact hn.symm

theorem sub_le_roundDouble (x : ℚ) (hx : 0 < x) (h : x < 1024) :
    x - 1 / 2 ^ 44 ≤ roundDouble x := by
  have hb : binade x ≤ 9 := by
    have hlog : Int.log 2 x < 10 := by
      rw [← Int.lt_zpow_iff_log_lt (by norm_num) hx]
      norm_num
      exact h
    unfold binade
    rw [abs_of_pos hx]
    exact max_le (by omega) (by norm_num)
  have hu : ulp x ≤ 1 / 2 ^ 43 := by
    unfold ulp
    have h1 : (2 : ℚ) ^ (binade x - 52) ≤ (2 : ℚ) ^ ((9 : ℤ) - 52) :=
      zpow_le_zpow_right₀ (by norm_num) (by omega)
    have h2 : (2 : ℚ) ^ ((9 : ℤ) - 52) = 1 / 2 ^ 43 := by norm_num
    rw [← h2]
    exact h1
  have hq := (roundHalfEven_bounds (x / ulp x)).1
  have hm := mul_le_mul_of_nonneg_right hq (le_of_lt (ulp_pos x))
  have he : (x / ulp x - 1 / 2) * ulp x = x - ulp x / 2 := by
    field_simp [(ulp_pos x).ne.symm]
    ring
  rw [he] at hm
  unfold roundDouble
  linarith

theorem double_below_one (r : ℚ) (hd : roundDouble r = r) (h1 : r < 1) :
    r ≤ 1 - 1 / 2 ^ 53 := by
  by_cases hhalf : r < 1 / 2
  · have : (1 : ℚ) / 2 ≤ 1 - 1 / 2 ^ 53 := by norm_num
    linarith
  · have hlo : (2 : ℚ) ^ (-1 : ℤ) ≤ r := by
      norm_num
      linarith
    have hhi : r < (2 : ℚ) ^ ((-1 : ℤ) + 1) := by
      norm_num
      exact h1
    have hrd := roundDouble_of_binade r (-1) (by norm_num) hlo hhi
    rw [hd] at hrd
    have hu : (2 : ℚ) ^ ((-1 : ℤ) - 52) = 1 / 2 ^ 53 := by norm_num
    rw [hu] at hrd
    have hk : (roundHalfEven (r / (1 / 2 ^ 53)) : ℚ) < (((2 : ℤ) ^ 53 : ℤ) : ℚ) := by
      have hr1 : (roundHalfEven (r / (1 / 2 ^ 53)) : ℚ) * (1 / 2 ^ 53) < 1 := by
        rw [← hrd]
        exact h1
      push_cast
      have h53 : (0 : ℚ) < 2 ^ 53 := by norm_num
      calc (roundHalfEven (r / (1 / 2 ^ 53)) : ℚ)
          = (roundHalfEven (r / (1 / 2 ^ 53)) : ℚ) * (1 / 2 ^ 53) * 2 ^ 53 := by
            field_simp
        _ < 1 * 2 ^ 53 := mul_lt_mul_of_pos_right hr1 h53
        _ = 2 ^ 53 := one_mul _
    have hk2 : roundHalfEven (r / (1 / 2 ^ 53)) < (2 : ℤ) ^ 53 := by exact_mod_cast hk
    have hk3 : roundHalfEven (r / (1 / 2 ^ 53)) ≤ (2 : ℤ) ^ 53 - 1 := by omega
    have hk4 : (roundHalfEven (r / (1 / 2 ^ 53)) : ℚ) ≤ (((2 : ℤ) ^ 53 - 1 : ℤ) : ℚ) := by
      exact_mod_cast hk3
    have hpos : (0 : ℚ) ≤ 1 / 2 ^ 53 := by norm_num
    have := mul_le_mul_of_nonneg_right hk4 hpos
    rw [← hrd] at this
    have he : (((2 : ℤ) ^ 53 - 1 : ℤ) : ℚ) * (1 / 2 ^ 53) = 1 - 1 / 2 ^ 53 := by norm_num
    rw [he] at this
    exact this

theorem roundDouble_50 : roundDouble 50 = 50 := by
  apply roundDouble_eq_self 50 5 (50 * 2 ^ 47) <;> norm_num

theorem roundDouble_200 : roundDouble 200 = 200 := by
  apply roundDouble_eq_self 200 7 (200 * 2 ^ 45) <;> norm_num

theorem roundDouble_400 : roundDouble 400 = 400 := by
  apply roundDouble_eq_self 400 8 (400 * 2 ^ 44) <;> norm_num

theorem roundDouble_550 : roundDouble 550 = 550 := by
  apply roundDouble_eq_self 550 9 (550 * 2 ^ 43) <;> norm_num

theorem roundDouble_below_400 : roundDouble (400 - 1 / 2 ^ 44) = 400 - 1 / 2 ^ 44 := by
  apply roundDouble_eq_self _ 8 (400 * 2 ^ 44 - 1) <;> norm_num

theorem roundDouble_below_550 : roundDouble (550 - 1 / 2 ^ 44) = 550 := by
  rw [roundDouble_of_binade _ 9 (by norm_num) (by norm_num) (by norm_num)]
  have hq : (550 - 1 / 2 ^ 44 : ℚ) / (2 : ℚ) ^ ((9 : ℤ) - 52) =
      (((550 * 2 ^ 43 : ℤ)) : ℚ) - 1 / 2 := by
    norm_num
  rw [hq, roundHalfEven_tie_even _ (by norm_num)]
  norm_num

theorem roundDouble_largest_product :
    roundDouble ((1 - 1 / 2 ^ 53) * 350) = 350 - 1 / 2 ^ 44 := by
  rw [roundDouble_of_binade _ 8 (by norm_num) (by norm_num) (by norm_num)]
  rw [roundHalfEven_eq_of_lt _ (350 * 2 ^ 44 - 1) (by norm_num) (by norm_num)]
  norm_num

theorem roundDouble_second_largest_product :
    roundDouble ((1 - 1 / 2 ^ 52) * 350) = 350 - 1 / 2 ^ 44 := by
  rw [roundDouble_of_binade _ 8 (by norm_num) (by norm_num) (by norm_num)]
  rw [roundHalfEven_eq_of_lt _ (350 * 2 ^ 44 - 1) (by norm_num) (by norm_num)]
  norm_num

theorem createPipe_fields (x r : ℚ) :
    (createPipe x r).topHeight = roundDouble (roundDouble (r * 350) + 50) ∧
    (createPipe x r).bottomY = roundDouble ((createPipe x r).topHeight + 150) ∧
    (createPipe x r).bottomHeight = roundDouble (600 - (createPipe x r).bottomY) := by
  have h350 : gameHeight - pipeGap - 100 = 350 := by norm_num [gameHeight, pipeGap]
  refine ⟨?_, rfl, rfl⟩
  show roundDouble (roundDouble (r * (gameHeight - pipeGap - 100)) + 50) = _
  rw [h350]

/-- Claim C13, counterexample: the draw `r = 1 - 2^-52` is a double with
`0 ≤ r < 1`; for it `createPipe` returns `topHeight = 400 - 2^-44`, which is
not `350 r + 50`, and, the sum `topHeight + 150` lying half way between two
doubles, `bottomY = 550` and `bottomHeight = 50` exactly: the bounds
`bottomY < 550` and `bottomHeight > 50` fail. -/
theorem createPipe_reaches_550 :
    roundDouble (1 - 1 / 2 ^ 52) = 1 - 1 / 2 ^ 52 ∧
    (0 : ℚ) ≤ 1 - 1 / 2 ^ 52 ∧ (1 - 1 / 2 ^ 52 : ℚ) < 1 ∧
    (createPipe 800 (1 - 1 / 2 ^ 52)).topHeight = 400 - 1 / 2 ^ 44 ∧
    (createPipe 800 (1 - 1 / 2 ^ 52)).topHeight ≠ 350 * (1 - 1 / 2 ^ 52) + 50 ∧
    (createPipe 800 (1 - 1 / 2 ^ 52)).bottomY = 550 ∧
    ¬ (createPipe 800 (1 - 1 / 2 ^ 52)).bottomY < 550 ∧
    (createPipe 800 (1 - 1 / 2 ^ 52)).bottomHeight = 50 ∧
    ¬ 50 < (createPipe 800 (1 - 1 / 2 ^ 52)).bottomHeight := by
  obtain ⟨ht, hb, hh⟩ := createPipe_fields 800 (1 - 1 / 2 ^ 52)
  have htop : (createPipe 800 (1 - 1 / 2 ^ 52)).topHeight = 400 - 1 / 2 ^ 44 := by
    rw [ht, roundDouble_second_largest_product]
    have e : (350 - 1 / 2 ^ 44 + 50 : ℚ) = 400 - 1 / 2 ^ 44 := by norm_num
    rw [e, roundDouble_below_400]
  have hbot : (createPipe 800 (1 - 1 / 2 ^ 52)).bottomY = 550 := by
    rw [hb, htop]
    have e : (400 - 1 / 2 ^ 44 + 150 : ℚ) = 550 - 1 / 2 ^ 44 := by norm_num
    rw [e, roundDouble_below_550]
  have hheight : (createPipe 800 (1 - 1 / 2 ^ 52)).bottomHeight = 50 := by
    rw [hh, hbot]
    have e : (600 - 550 : ℚ) = 50 := by norm_num
    rw [e, roundDouble_50]
  refine ⟨?_, by norm_num, by norm_num, htop, ?_, hbot, ?_, hheight, ?_⟩
  · apply roundDouble_eq_self _ (-1) (2 ^ 53 - 2) <;> norm_num
  · rw [htop]
    norm_num
  · rw [hbot]
    norm_num
  · rw [hheight]
    norm_num

/-- Claim C13, amended: for every `x` and every double `r` with `0 ≤ r < 1`,
`createPipe(x)` returns a pipe with the given `x`, width 60, `passed = false`,
`topHeight = fl(fl(350 r) + 50)` (so `50 ≤ topHeight < 400`),
`bottomY = fl(topHeight + pipeGap) = fl(topHeight + 150)` (so
`bottomY ≤ 550`) and `bottomHeight = fl(gameHeight - bottomY) ≥ 50`, where
`fl` rounds to the nearest double; hence the gap lies inside the playfield
`[0, 600]` (`0 < topHeight`, `bottomY < 600`) and is taller than the bird
(`bottomY - topHeight > 30`). -/
theorem createPipe_bounds (x r : ℚ) (hd : roundDouble r = r) (h0 : 0 ≤ r) (h1 : r < 1) :
    (createPipe x r).x = x ∧ (createPipe x r).width = 60 ∧
    (createPipe x r).passed = false ∧
    (createPipe x r).topHeight = roundDouble (roundDouble (350 * r) + 50) ∧
    50 ≤ (createPipe x r).topHeight ∧ (createPipe x r).topHeight < 400 ∧
    (createPipe x r).bottomY = roundDouble ((createPipe x r).topHeight + pipeGap) ∧
    (createPipe x r).bottomY = roundDouble ((createPipe x r).topHeight + 150) ∧
    (createPipe x r).bottomY ≤ 550 ∧
    (createPipe x r).bottomHeight = roundDouble (gameHeight - (createPipe x r).bottomY) ∧
    50 ≤ (createPipe x r).bottomHeight ∧
    0 < (createPipe x r).topHeight ∧ (createPipe x r).bottomY < 600 ∧ gameHeight = 600 ∧
    birdSize = 30 ∧ birdSize < (createPipe x r).bottomY - (createPipe x r).topHeight := by
  obtain ⟨ht, hb, hh⟩ := createPipe_fields x r
  have hr := double_below_one r hd h1
  have hp0 : 0 ≤ roundDouble (r * 350) := roundDouble_nonneg _ (by positivity)
  have hp1 : roundDouble (r * 350) ≤ 350 - 1 / 2 ^ 44 := by
    rw [← roundDouble_largest_product]
    exact roundDouble_mono _ _ (by positivity) (by linarith)
  have htop0 : 50 ≤ (createPipe x r).topHeight := by
    rw [ht]
    calc (50 : ℚ) = roundDouble 50 := roundDouble_50.symm
      _ ≤ roundDouble (roundDouble (r * 350) + 50) :=
        roundDouble_mono _ _ (by norm_num) (by linarith)
  have htop1 : (createPipe x r).topHeight ≤ 400 - 1 / 2 ^ 44 := by
    rw [ht, ← roundDouble_below_400]
    exact roundDouble_mono _ _ (by linarith) (by linarith)
  have hbot0 : 200 ≤ (createPipe x r).bottomY := by
    rw [hb]
    calc (200 : ℚ) = roundDouble 200 := roundDouble_200.symm
      _ ≤ roundDouble ((createPipe x r).topHeight + 150) :=
        roundDouble_mono _ _ (by norm_num) (by linarith)
  have hbot1 : (createPipe x r).bottomY ≤ 550 := by
    rw [hb, ← roundDouble_550]
    have h44 : (0 : ℚ) < 1 / 2 ^ 44 := by norm_num
    exact roundDouble_mono _ _ (by linarith) (by linarith)
  have hheight : 50 ≤ (createPipe x r).bottomHeight := by
    rw [hh]
    calc (50 : ℚ) = roundDouble 50 := roundDouble_50.symm
      _ ≤ roundDouble (600 - (createPipe x r).bottomY) :=
        roundDouble_mono _ _ (by norm_num) (by linarith)
  have hgap : (createPipe x r).topHeight + 150 - 1 / 2 ^ 44 ≤ (createPipe x r).bottomY := by
    have h44 : (0 : ℚ) < 1 / 2 ^ 44 := by norm_num
    have := sub_le_roundDouble ((createPipe x r).topHeight + 150) (by linarith) (by linarith)
    rw [← hb] at this
    exact this
  have h44 : (1 : ℚ) / 2 ^ 44 < 1 := by norm_num
  have hg : gameHeight = 600 := rfl
  have hs : birdSize = 30 := rfl
  have hgapdef : pipeGap = 150 := rfl
  have h44pos : (0 : ℚ) < 1 / 2 ^ 44 := by norm_num
  refine ⟨rfl, rfl, rfl, ?_, htop0, ?_, ?_, hb, hbot1, ?_, hheight, ?_, ?_, hg, hs, ?_⟩
  · rw [ht, mul_comm]
  · linarith
  · rw [hgapdef]
    exact hb
  · rw [hg]
    exact hh
  · linarith
  · linarith
  · rw [hs]
    linarith

theorem createPipe_bounds_witness :
    roundDouble (1 / 2) = 1 / 2 ∧
    50 ≤ (createPipe 800 (1 / 2)).topHeight ∧ (createPipe 800 (1 / 2)).topHeight < 400 ∧
    (createPipe 800 (1 / 2)).bottomY ≤ 550 ∧ 50 ≤ (createPipe 800 (1 / 2)).bottomHeight :=
  have hd : roundDouble (1 / 2) = 1 / 2 := by
    apply roundDouble_eq_self _ (-1) (2 ^ 52) <;> norm_num
  have h := createPipe_bounds 800 (1 / 2) hd (by norm_num) (by norm_num)
  ⟨hd, h.2.2.2.2.1, h.2.2.2.2.2.1, h.2.2.2.2.2.2.2.2.1, h.2.2.2.2.2.2.2.2.2.2.1⟩

/-! ## Amplitude detector -/

theorem normalizedAmplitude_of_ne_nil (d : List Nat) (hne : d ≠ []) :
    normalizedAmplitude d = some ((((d.sum : Nat) : ℚ) / (d.length : ℚ)) / 255) := by
  unfold normalizedAmplitude
  have hlen : ¬ d.length = 0 := fun h => hne (List.length_eq_zero.1 h)
  simp only [hlen, if_false]
  rw [List.sum_eq_foldl]

theorem detectAmplitude_fires (w : World) (d : List Nat) (level : ℚ) (t : Int)
    (hact : w.amplitudeDetectionActive = true) (hlevel : normalizedAmplitude d = some level)
    (habove : level > w.amplitudeThreshold) (hgap : t - w.lastCommandTime > 50) :
    detectAmplitude w d t =
      ({ handleVoiceCommand w "amplitude" "sound detected" with lastCommandTime := t },
        [amplitudeCommand]) := by
  unfold detectAmplitude
  simp only [hact, hlevel, Bool.not_true, Bool.false_eq_true, if_false, if_pos habove,
    if_pos hgap]
  rfl

theorem detectAmplitude_silent (w : World) (d : List Nat) (level : ℚ) (t : Int)
    (hlevel : normalizedAmplitude d = some level)
    (hnot : ¬ (level > w.amplitudeThreshold ∧ t - w.lastCommandTime > 50)) :
    detectAmplitude w d t = (w, []) := by
  unfold detectAmplitude
  simp only [hlevel]
  split
  · rfl
  · split
    · rename_i habove
      split
      · rename_i hgap
        exact absurd ⟨habove, hgap⟩ hnot
      · rfl
    · rfl

theorem handleVoiceCommand_voice_fields (w : World) (source command : String) :
    (handleVoiceCommand w source command).amplitudeDetectionActive =
        w.amplitudeDetectionActive ∧
      (handleVoiceCommand w source command).amplitudeThreshold = w.amplitudeThreshold ∧
      (handleVoiceCommand w source command).lastCommandTime = w.lastCommandTime := by
  unfold handleVoiceCommand handleCalibrationCommand
  split
  · exact ⟨rfl, rfl, rfl⟩
  · split <;> exact ⟨rfl, rfl, rfl⟩

/-- Claim C14: amplitude cooldown.  For two consecutive amplitude samples,
both above the threshold, taken at times `t1 < t2`, the first of which raises
a command (`t1` more than 50 ms after `lastCommandTime`), the detector calls
`handleVoiceCommand` exactly once in total if `t2 - t1` is less than 50 ms
and exactly twice if `t2 - t1` is more than 50 ms. -/
theorem amplitude_cooldown (w : World) (d1 d2 : List Nat) (level1 level2 : ℚ) (t1 t2 : Int)
    (hact : w.amplitudeDetectionActive = true)
    (h1 : normalizedAmplitude d1 = some level1) (ha1 : level1 > w.amplitudeThreshold)
    (h2 : normalizedAmplitude d2 = some level2) (ha2 : level2 > w.amplitudeThreshold)
    (hfirst : t1 - w.lastCommandTime > 50) (hlt : t1 < t2) :
    (detectAmplitude w d1 t1).2 = [amplitudeCommand] ∧
    (t2 - t1 < 50 →
      (detectAmplitude (detectAmplitude w d1 t1).1 d2 t2).2 = [] ∧
      ((detectAmplitude w d1 t1).2 ++
        (detectAmplitude (detectAmplitude w d1 t1).1 d2 t2).2).length = 1) ∧
    (t2 - t1 > 50 →
      (detectAmplitude (detectAmplitude w d1 t1).1 d2 t2).2 = [amplitudeCommand] ∧
      ((detectAmplitude w d1 t1).2 ++
        (detectAmplitude (detectAmplitude w d1 t1).1 d2 t2).2).length = 2) := by
  have _ := hlt
  have hfire := detectAmplitude_fires w d1 level1 t1 hact h1 ha1 hfirst
  obtain ⟨hf1, hf2, -⟩ := handleVoiceCommand_voice_fields w "amplitude" "sound detected"
  have hact1 : (detectAmplitude w d1 t1).1.amplitudeDetectionActive = true := by
    rw [hfire]
    exact hf1.trans hact
  have hthr1 : (detectAmplitude w d1 t1).1.amplitudeThreshold = w.amplitudeThreshold := by
    rw [hfire]
    exact hf2
  have hlast1 : (detectAmplitude w d1 t1).1.lastCommandTime = t1 := by
    rw [hfire]
  have hfirst2 : (detectAmplitude w d1 t1).2 = [amplitudeCommand] := by
    rw [hfire]
  refine ⟨hfirst2, ?_, ?_⟩
  · intro hshort
    have hsil := detectAmplitude_silent (detectAmplitude w d1 t1).1 d2 level2 t2 h2
      (by
        rw [hlast1]
        intro hboth
        omega)
    rw [hsil, hfirst2]
    exact ⟨rfl, rfl⟩
  · intro hlong
    have hfire2 := detectAmplitude_fires (detectAmplitude w d1 t1).1 d2 level2 t2 hact1 h2
      (by rw [hthr1]; exact ha2) (by rw [hlast1]; exact hlong)
    rw [hfire2, hfirst2]
    exact ⟨rfl, rfl⟩

theorem amplitude_cooldown_witness :
    ((detectAmplitude listeningWorld [255, 255] 100).2 ++
      (detectAmplitude (detectAmplitude listeningWorld [255, 255] 100).1 [200, 100] 130).2).length
        = 1 ∧
    ((detectAmplitude listeningWorld [255, 255] 100).2 ++
      (detectAmplitude (detectAmplitude listeningWorld [255, 255] 100).1 [200, 100] 160).2).length
        = 2 :=
  have h1 : normalizedAmplitude [255, 255] = some 1 := by
    rw [normalizedAmplitude_of_ne_nil _ (by simp)]
    norm_num
  have h2 : normalizedAmplitude [200, 100] = some (10 / 17) := by
    rw [normalizedAmplitude_of_ne_nil _ (by simp)]
    norm_num
  have ht : listeningWorld.amplitudeThreshold = 3 / 10 := rfl
  ⟨((amplitude_cooldown listeningWorld [255, 255] [200, 100] 1 (10 / 17) 100 130 rfl h1
      (by rw [ht]; norm_num) h2 (by rw [ht]; norm_num) (by decide) (by decide)).2.1
      (by decide)).2,
    ((amplitude_cooldown listeningWorld [255, 255] [200, 100] 1 (10 / 17) 100 160 rfl h1
      (by rw [ht]; norm_num) h2 (by rw [ht]; norm_num) (by decide) (by decide)).2.2
      (by decide)).2⟩

/-- Claim C15, counterexample: the detector is running, the level of the
sample is 1, above the threshold 0.3, and exactly 50 ms have elapsed since
`lastCommandTime = 0`; no command is raised and `lastCommandTime` stays 0. -/
theorem detectAmplitude_exactly_50ms_is_silent :
    listeningWorld.amplitudeDetectionActive = true ∧
    normalizedAmplitude [255, 255] = some 1 ∧
    (1 : ℚ) > listeningWorld.amplitudeThreshold ∧
    (50 : Int) - listeningWorld.lastCommandTime = 50 ∧
    (detectAmplitude listeningWorld [255, 255] 50).2 = [] ∧
    (detectAmplitude listeningWorld [255, 255] 50).1.lastCommandTime = 0 := by
  have h1 : normalizedAmplitude [255, 255] = some 1 := by
    rw [normalizedAmplitude_of_ne_nil _ (by simp)]
    norm_num
  have hsil := detectAmplitude_silent listeningWorld [255, 255] 1 50 h1
    (by
      intro hboth
      have h50 : (50 : Int) - listeningWorld.lastCommandTime = 50 := rfl
      have := hboth.2
      omega)
  refine ⟨rfl, h1, ?_, rfl, ?_, ?_⟩
  · have ht : listeningWorld.amplitudeThreshold = 3 / 10 := rfl
    rw [ht]
    norm_num
  · rw [hsil]
  · rw [hsil]
    rfl

/-- Claim C15, amended: for every non-empty array of samples, threshold,
current time and `lastCommandTime`, one pass of the running detector raises a
command with source `amplitude` (and sets `lastCommandTime` to the current
time) if and only if the normalized level (mean of the samples divided by
255) exceeds `amplitudeThreshold` and more than 50 ms have elapsed since
`lastCommandTime` (an elapsed time of exactly 50 ms does not count);
otherwise no command is raised and nothing changes. -/
theorem detectAmplitude_iff (w : World) (d : List Nat) (t : Int)
    (hact : w.amplitudeDetectionActive = true) (hne : d ≠ []) :
    ((((d.sum : Nat) : ℚ) / (d.length : ℚ)) / 255 > w.amplitudeThreshold ∧
        t - w.lastCommandTime > 50 →
      (detectAmplitude w d t).2 = [{ source := "amplitude", command := "sound detected" }] ∧
      (detectAmplitude w d t).1.lastCommandTime = t ∧
      (detectAmplitude w d t).1 =
        { handleVoiceCommand w "amplitude" "sound detected" with lastCommandTime := t }) ∧
    (¬ ((((d.sum : Nat) : ℚ) / (d.length : ℚ)) / 255 > w.amplitudeThreshold ∧
        t - w.lastCommandTime > 50) →
      (detectAmplitude w d t).2 = [] ∧ (detectAmplitude w d t).1 = w) ∧
    ((detectAmplitude w d t).2 ≠ [] ↔
      ((((d.sum : Nat) : ℚ) / (d.length : ℚ)) / 255 > w.amplitudeThreshold ∧
        t - w.lastCommandTime > 50)) := by
  have hlevel := normalizedAmplitude_of_ne_nil d hne
  have hpos : (((d.sum : Nat) : ℚ) / (d.length : ℚ)) / 255 > w.amplitudeThreshold ∧
      t - w.lastCommandTime > 50 →
      detectAmplitude w d t =
        ({ handleVoiceCommand w "amplitude" "sound detected" with lastCommandTime := t },
          [amplitudeCommand]) :=
    fun h => detectAmplitude_fires w d _ t hact hlevel h.1 h.2
  have hneg : ¬ ((((d.sum : Nat) : ℚ) / (d.length : ℚ)) / 255 > w.amplitudeThreshold ∧
      t - w.lastCommandTime > 50) → detectAmplitude w d t = (w, []) :=
    fun h => detectAmplitude_silent w d _ t hlevel h
  refine ⟨?_, ?_, ?_⟩
  · intro h
    rw [hpos h]
    exact ⟨rfl, rfl, rfl⟩
  · intro h
    rw [hneg h]
    exact ⟨rfl, rfl⟩
  · constructor
    · intro hcalls
      by_contra h
      rw [hneg h] at hcalls
      exact hcalls rfl
    · intro h
      rw [hpos h]
      simp

theorem detectAmplitude_iff_witness :
    (detectAmplitude listeningWorld [255, 255] 51).2 =
      [{ source := "amplitude", command := "sound detected" }] ∧
    (detectAmplitude listeningWorld [255, 255] 51).1.lastCommandTime = 51 ∧
    (detectAmplitude listeningWorld [255, 255] 50).2 = [] :=
  have ht : listeningWorld.amplitudeThreshold = 3 / 10 := rfl
  have hl : listeningWorld.lastCommandTime = 0 := rfl
  have ha : (((([255, 255] : List Nat).sum : Nat) : ℚ) /
      ((([255, 255] : List Nat).length : Nat) : ℚ)) / 255 > listeningWorld.amplitudeThreshold := by
    rw [ht]
    norm_num
  have hfire := (detectAmplitude_iff listeningWorld [255, 255] 51 rfl (by simp)).1
    ⟨ha, by rw [hl]; decide⟩
  have hsil := (detectAmplitude_iff listeningWorld [255, 255] 50 rfl (by simp)).2.1
    (fun h => absurd h.2 (by rw [hl]; decide))
  ⟨hfire.1, hfire.2.1, hsil.1⟩

/-! ## Command dispatcher -/

/-- Claim C16: `handleVoiceCommand` does exactly one of three things.  With
`calibrationMode` set it increments `testDetectionCount` by 1 and leaves the
bird, the score and `commandCount` unchanged; otherwise, with `gameRunning`
and not `gamePaused`, it sets the bird's velocity to `flapStrength` once and
increments `commandCount` by exactly 1; otherwise it leaves the bird and every
`gameState` field unchanged.  In every case `commandCount` does not decrease. -/
theorem handleVoiceCommand_cases (w : World) (source command : String) :
    (w.gameState.calibrationMode = true →
      handleVoiceCommand w source command =
        { w with
          gameState :=
            { w.gameState with testDetectionCount := w.gameState.testDetectionCount + 1 } } ∧
      (handleVoiceCommand w source command).bird = w.bird ∧
      (handleVoiceCommand w source command).gameState.score = w.gameState.score ∧
      (handleVoiceCommand w source command).gameState.commandCount =
        w.gameState.commandCount) ∧
    (w.gameState.calibrationMode = false → w.gameState.gameRunning = true →
      w.gameState.gamePaused = false →
      handleVoiceCommand w source command =
        { w with
          bird := flapBird w.bird
          gameState := { w.gameState with commandCount := w.gameState.commandCount + 1 } } ∧
      (∀ b : Bird, w.bird = some b →
        (handleVoiceCommand w source command).bird =
          some { x := b.x, y := b.y, velocity := flapStrength, size := b.size }) ∧
      (handleVoiceCommand w source command).gameState.commandCount =
        w.gameState.commandCount + 1 ∧
      (handleVoiceCommand w source command).gameState.testDetectionCount =
        w.gameState.testDetectionCount) ∧
    (w.gameState.calibrationMode = false →
      ¬ (w.gameState.gameRunning = true ∧ w.gameState.gamePaused = false) →
      handleVoiceCommand w source command = w) ∧
    w.gameState.commandCount ≤ (handleVoiceCommand w source command).gameState.commandCount := by
  refine ⟨?_, ?_, ?_, ?_⟩
  · intro hc
    unfold handleVoiceCommand handleCalibrationCommand
    rw [if_pos hc]
    exact ⟨rfl, rfl, rfl, rfl⟩
  · intro hc hr hp
    have heq : handleVoiceCommand w source command =
        { w with
          bird := flapBird w.bird
          gameState := { w.gameState with commandCount := w.gameState.commandCount + 1 } } := by
      unfold handleVoiceCommand
      simp [hc, hr, hp]
    rw [heq]
    refine ⟨rfl, ?_, rfl, rfl⟩
    intro b hb
    simp only [hb, flapBird]
  · intro hc hnot
    unfold handleVoiceCommand
    simp only [hc, Bool.false_eq_true, if_false]
    rw [if_neg]
    intro h
    apply hnot
    simpa using h
  · unfold handleVoiceCommand handleCalibrationCommand
    split
    · exact le_refl _
    · split
      · simp
      · exact le_refl _

theorem handleVoiceCommand_cases_witness :
    (handleVoiceCommand calibratingWorld "speech" "flap").gameState.testDetectionCount = 1 ∧
    handleVoiceCommand initialWorld "speech" "flap" = initialWorld ∧
    (handleVoiceCommand playingWorld "speech" "flap").gameState.commandCount = 1 :=
  ⟨by
      rw [((handleVoiceCommand_cases calibratingWorld "speech" "flap").1 rfl).1]
      rfl,
    (handleVoiceCommand_cases initialWorld "speech" "flap").2.2.1 rfl (by decide),
    ((handleVoiceCommand_cases playingWorld "speech" "flap").2.1 rfl rfl rfl).2.2.1⟩

/-! ## Speech results -/

theorem includesChars_iff (needle hay : List Char) :
    includesChars needle hay = true ↔ needle <:+: hay := by
  induction hay with
  | nil => simp [includesChars, List.isEmpty_iff]
  | cons c cs ih =>
    unfold includesChars
    rw [Bool.or_eq_true, ih, List.infix_cons_iff]
    simp

theorem matchesCommand_iff (transcript : String) :
    matchesCommand transcript = true ↔
      ∃ word ∈ ["flap", "up", "jump", "go", "fly"], word.data <:+: transcript.data := by
  unfold matchesCommand VOICE_COMMANDS includes
  rw [List.any_eq_true]
  constructor
  · rintro ⟨word, hmem, h⟩
    exact ⟨word, hmem, (includesChars_iff _ _).1 h⟩
  · rintro ⟨word, hmem, h⟩
    exact ⟨word, hmem, (includesChars_iff _ _).2 h⟩

theorem callsFor_cons (result : List String) (text : String) (rest : List (List String))
    (h : result[0]? = some text) :
    callsFor (result :: rest) =
      if matchesCommand (trim (toLowerCase text)) then
        { source := "speech", command := trim (toLowerCase text) } :: callsFor rest
      else callsFor rest := by
  unfold callsFor
  simp only [List.filterMap_cons, h]
  rw [List.map_cons]
  by_cases hm : matchesCommand (trim (toLowerCase text)) = true
  · rw [List.filter_cons_of_pos hm, if_pos hm, List.map_cons]
  · rw [List.filter_cons_of_neg hm, if_neg hm]

theorem onresultFrom_eq (results : List (List String)) (fuel : Nat) :
    ∀ (i : Nat) (w : World), results.length ≤ i + fuel →
      (∀ result ∈ results.drop i, ∃ text, result[0]? = some text) →
      onresultFrom results fuel i w =
        some (applyCalls w (callsFor (results.drop i)), callsFor (results.drop i)) := by
  induction fuel with
  | zero =>
    intro i w hlen _
    rw [List.drop_eq_nil_of_le (by omega)]
    rfl
  | succ fuel ih =>
    intro i w hlen hfirst
    unfold onresultFrom
    by_cases hi : i < results.length
    · rw [if_pos hi, List.getElem?_eq_getElem hi]
      have hdrop := List.drop_eq_getElem_cons hi
      obtain ⟨text, htext⟩ := hfirst results[i] (by rw [hdrop]; exact List.mem_cons_self _ _)
      have hrest : ∀ result ∈ results.drop (i + 1), ∃ text, result[0]? = some text := by
        intro result hmem
        exact hfirst result (by rw [hdrop]; exact List.mem_cons_of_mem _ hmem)
      simp only [htext]
      rw [hdrop, callsFor_cons _ text _ htext]
      by_cases hm : matchesCommand (trim (toLowerCase text)) = true
      · rw [if_pos hm, if_pos hm, ih (i + 1) _ (by omega) hrest]
        rfl
      · rw [if_neg hm, if_neg hm, ih (i + 1) _ (by omega) hrest]
    · rw [if_neg hi, List.drop_eq_nil_of_le (by omega)]
      rfl

theorem length_callsFor (results : List (List String)) :
    (callsFor results).length = (results.filter resultMatches).length := by
  induction results with
  | nil => rfl
  | cons result rest ih =>
    cases h : result[0]? with
    | none =>
      have hm : resultMatches result = false := by
        unfold resultMatches
        rw [h]
      rw [List.filter_cons_of_neg (by simp [hm]), ← ih]
      unfold callsFor
      simp only [List.filterMap_cons, h]
    | some text =>
      rw [callsFor_cons _ text _ h]
      have hm : resultMatches result = matchesCommand (trim (toLowerCase text)) := by
        unfold resultMatches
        rw [h]
      by_cases hc : matchesCommand (trim (toLowerCase text)) = true
      · rw [if_pos hc, List.filter_cons_of_pos (by rw [hm]; exact hc), List.length_cons,
          List.length_cons, ih]
      · rw [if_neg hc, List.filter_cons_of_neg (by rw [hm]; exact hc), ih]

/-- Claim C17: for every speech result event (each result from `resultIndex`
on having a first alternative), the `onresult` handler calls
`handleVoiceCommand` with source `speech` exactly once for each result at an
index `≥ resultIndex` whose lower-cased, trimmed first-alternative transcript
contains at least one of the words `flap`, `up`, `jump`, `go`, `fly` as a
substring (also inside a longer word), in the order of the results, and makes
no call for any other result. -/
theorem onresult_dispatch (w : World) (event : SpeechEvent)
    (hfirst : ∀ result ∈ event.results.drop event.resultIndex,
      ∃ text, result[0]? = some text) :
    onresult w event = some (applyCalls w (speechCalls event), speechCalls event) ∧
    (∀ c ∈ speechCalls event, c.source = "speech" ∧ matchesCommand c.command = true) ∧
    (speechCalls event).length =
      ((event.results.drop event.resultIndex).filter resultMatches).length ∧
    (∀ transcript : String, matchesCommand transcript = true ↔
      ∃ word ∈ ["flap", "up", "jump", "go", "fly"], word.data <:+: transcript.data) := by
  refine ⟨?_, ?_, length_callsFor _, matchesCommand_iff⟩
  · unfold onresult speechCalls
    exact onresultFrom_eq event.results _ event.resultIndex w (by omega) hfirst
  · intro c hc
    unfold speechCalls callsFor at hc
    rw [List.mem_map] at hc
    obtain ⟨transcript, hmem, rfl⟩ := hc
    exact ⟨rfl, (List.mem_filter.1 hmem).2⟩

theorem onresult_dispatch_witness :
    onresult calibratingWorld sampleEvent =
      some (applyCalls calibratingWorld [{ source := "speech", command := "jumping now" }],
        [{ source := "speech", command := "jumping now" }]) ∧
    (speechCalls sampleEvent).length =
      ((sampleEvent.results.drop sampleEvent.resultIndex).filter resultMatches).length :=
  have h := onresult_dispatch calibratingWorld sampleEvent (by
    intro result hmem
    have hcases : result = ["  JUMPING now "] ∨ result = ["hello"] := by
      simpa [sampleEvent] using hmem
    rcases hcases with rfl | rfl
    · exact ⟨_, rfl⟩
    · exact ⟨_, rfl⟩)
  have hcalls : speechCalls sampleEvent = [{ source := "speech", command := "jumping now" }] := by
    decide
  ⟨by rw [← hcalls]; exact h.1, h.2.2.1⟩

/-! ## Game loop, pause and pending frames -/

theorem hitsPipe_false_of_far (b : Bird) (pipes : List Pipe)
    (h : ∀ p ∈ pipes, b.x + b.size ≤ p.x) : hitsPipe b pipes = false := by
  induction pipes with
  | nil => rfl
  | cons p rest ih =>
    unfold hitsPipe
    have hp := h p (List.mem_cons_self p rest)
    rw [if_neg (fun hx => absurd hx.1 (not_lt.2 hp))]
    exact ih (fun q hq => h q (List.mem_cons_of_mem p hq))

theorem checkCollisions_false_of_far (b : Bird) (pipes : List Pipe) (h0 : 0 ≤ b.y)
    (h1 : b.y + b.size ≤ gameHeight) (h : ∀ p ∈ pipes, b.x + b.size ≤ p.x) :
    checkCollisions b pipes = false := by
  unfold checkCollisions
  rw [if_neg, hitsPipe_false_of_far b pipes h]
  rintro (hgt | hlt)
  · exact absurd h1 (not_le.2 hgt)
  · exact absurd h0 (not_le.2 hlt)

theorem nextPipes_lower_bound (bx : ℚ) (pipes : List Pipe) (rand c : ℚ)
    (h : ∀ p ∈ pipes, c ≤ p.x) (hc : c - 2 ≤ 800) :
    ∀ p ∈ nextPipes bx pipes rand, c - 2 ≤ p.x := by
  have hadv : ∀ p ∈ advancePipes bx pipes, c - 2 ≤ p.x := by
    intro p hp
    unfold advancePipes at hp
    obtain ⟨q, hq, rfl⟩ := List.mem_map.1 (List.mem_filter.1 hp).1
    have := h q hq
    simp only [advancePipe, pipeSpeed]
    linarith
  intro p hp
  unfold nextPipes at hp
  split at hp
  · rcases List.mem_append.1 hp with hp | hp
    · exact hadv p hp
    · rw [List.mem_singleton.1 hp]
      exact hc
  · exact hadv p hp

theorem updateGame_no_collision (w : World) (b : Bird) (rand : ℚ) (today : String)
    (hb : w.bird = some b)
    (hc : checkCollisions (tickBird b) (nextPipes b.x w.pipes rand) = false) :
    updateGame w rand today =
      some { w with
        gameState :=
          { w.gameState with
            score := w.gameState.score +
              ((w.pipes.filter (makesTransition b.x)).length : Int) }
        bird := some (tickBird b)
        pipes := nextPipes b.x w.pipes rand } := by
  unfold updateGame
  rw [hb]
  simp only [updatePipes_eq]
  have hn : (if wantsNewPipe (advancePipes b.x w.pipes) = true then
      advancePipes b.x w.pipes ++ [createPipe gameWidth rand]
      else advancePipes b.x w.pipes) = nextPipes b.x w.pipes rand := rfl
  rw [hn]
  have hc1 : checkCollisions
      { x := b.x, y := b.y + (b.velocity + gravity), velocity := b.velocity + gravity,
        size := b.size } (nextPipes b.x w.pipes rand) = false := hc
  rw [hc1]
  rfl

theorem gameLoop_snap (w : World) (rand : ℚ) (today : String) (y v c : ℚ)
    (pending : List Nat) (next : Nat) (stored : Option Nat)
    (h : Snap w true false y v c pending next stored) (hc : 132 ≤ c) (hc2 : c ≤ 802)
    (hy0 : 0 ≤ y + (v + 1 / 2)) (hy1 : y + (v + 1 / 2) ≤ 570) :
    ∃ w1 : World, gameLoop w rand today = some w1 ∧
      Snap w1 true false (y + (v + 1 / 2)) (v + 1 / 2) (c - 2) (pending ++ [next]) (next + 1)
        (some next) := by
  obtain ⟨hrun, hpause, hbird, hpipes, hpend, hnext, -, haudio⟩ := h
  have hfar := nextPipes_lower_bound (100 : ℚ) w.pipes rand c hpipes (by linarith)
  have hcoll : checkCollisions (tickBird { x := 100, y := y, velocity := v, size := 30 })
      (nextPipes (100 : ℚ) w.pipes rand) = false := by
    apply checkCollisions_false_of_far
    · simpa [tickBird, gravity] using hy0
    · simp only [tickBird, gravity, gameHeight]
      linarith
    · intro p hp
      have := hfar p hp
      simp only [tickBird]
      linarith
  have hupd := updateGame_no_collision w _ rand today hbird hcoll
  have hgo : ¬ ((!w.gameState.gameRunning || w.gameState.gamePaused) = true) := by
    simp [hrun, hpause]
  unfold gameLoop
  rw [if_neg hgo, hupd]
  refine ⟨_, rfl, hrun, hpause, rfl, hfar, ?_, ?_, ?_, haudio⟩
  · simp [requestAnimationFrame, hpend, hnext]
  · simp [requestAnimationFrame, hnext]
  · simp [requestAnimationFrame, hnext]

theorem startAmplitudeDetection_of_no_audio (w : World) (d : List Nat) (t : Int)
    (h : w.isAudioInitialized = false) : startAmplitudeDetection w d t = w := by
  unfold startAmplitudeDetection
  simp [h]

theorem startGameplay_snap (w : World) (r0 r1 r2 : ℚ) (inp : Inputs) (pending : List Nat)
    (next : Nat) (hp : w.pendingFrames = pending) (hn : w.nextHandle = next)
    (ha : w.isAudioInitialized = false) :
    ∃ w1 : World, startGameplay w r0 r1 r2 inp = some w1 ∧
      Snap w1 true false (300 + 1 / 2) (1 / 2) 798 (pending ++ [next]) (next + 1)
        (some next) := by
  have hsnap : Snap
      { resetGame { w with gameState := { w.gameState with currentScreen := Screen.game } }
          r0 r1 r2 with
        gameState :=
          { (resetGame { w with gameState := { w.gameState with currentScreen := Screen.game } }
              r0 r1 r2).gameState with gameRunning := true, gamePaused := false } }
      true false 300 0 800 pending next w.animationFrame := by
    refine ⟨rfl, rfl, ?_, ?_, hp, hn, rfl, ha⟩
    · simp [resetGame, resetBird, birdStartX, birdStartY, birdSize]
    · intro p hmem
      simp only [resetGame, generateInitialPipes, createPipe, List.nil_append,
        List.cons_append, List.mem_cons, List.mem_singleton, List.not_mem_nil, or_false]
        at hmem
      rcases hmem with rfl | rfl | rfl <;> simp [gameWidth]
  obtain ⟨w1, hloop, hs1⟩ := gameLoop_snap _ inp.rand inp.today 300 0 800 pending next
    w.animationFrame hsnap (by norm_num) (by norm_num) (by norm_num) (by norm_num)
  have hs2 : Snap w1 true false (300 + 1 / 2) (1 / 2) 798 (pending ++ [next]) (next + 1)
      (some next) := by
    have e1 : (300 : ℚ) + (0 + 1 / 2) = 300 + 1 / 2 := by norm_num
    have e2 : (0 : ℚ) + 1 / 2 = 1 / 2 := by norm_num
    have e3 : (800 : ℚ) - 2 = 798 := by norm_num
    rw [e1, e2, e3] at hs1
    exact hs1
  refine ⟨w1, ?_, hs2⟩
  unfold startGameplay
  simp only [hloop, hs2.2.2.2.2.2.2.2, Bool.false_and, Bool.false_eq_true, if_false]

theorem togglePause_pause_snap (w : World) (inp : Inputs) (y v c : ℚ) (pending : List Nat)
    (next : Nat) (stored : Option Nat) (h : Snap w true false y v c pending next stored) :
    ∃ w1 : World, togglePause w inp = some w1 ∧ Snap w1 true true y v c pending next stored := by
  obtain ⟨hrun, hpause, hbird, hpipes, hpend, hnext, hst, haudio⟩ := h
  have hgo : ¬ ((!w.gameState.gameRunning) = true) := by simp [hrun]
  have hnow : (!w.gameState.gamePaused) = true := by simp [hpause]
  refine ⟨stopAmplitudeDetection
    { w with gameState := { w.gameState with gamePaused := !w.gameState.gamePaused } }, ?_, ?_⟩
  · unfold togglePause
    rw [if_neg hgo]
    simp only [hnow, if_true]
  · exact ⟨hrun, hnow, hbird, hpipes, hpend, hnext, hst, haudio⟩

theorem togglePause_resume_snap (w : World) (inp : Inputs) (y v c : ℚ) (pending : List Nat)
    (next : Nat) (stored : Option Nat) (h : Snap w true true y v c pending next stored)
    (hc : 132 ≤ c) (hc2 : c ≤ 802) (hy0 : 0 ≤ y + (v + 1 / 2)) (hy1 : y + (v + 1 / 2) ≤ 570) :
    ∃ w1 : World, togglePause w inp = some w1 ∧
      Snap w1 true false (y + (v + 1 / 2)) (v + 1 / 2) (c - 2) (pending ++ [next]) (next + 1)
        (some next) := by
  obtain ⟨hrun, hpause, hbird, hpipes, hpend, hnext, hst, haudio⟩ := h
  have hsnap : Snap { w with gameState := { w.gameState with gamePaused := !w.gameState.gamePaused } }
      true false y v c pending next stored :=
    ⟨hrun, by simp [hpause], hbird, hpipes, hpend, hnext, hst, haudio⟩
  obtain ⟨w1, hloop, hs1⟩ := gameLoop_snap _ inp.rand inp.today y v c pending next stored hsnap
    hc hc2 hy0 hy1
  have hgo : ¬ ((!w.gameState.gameRunning) = true) := by simp [hrun]
  have hnow : ¬ ((!w.gameState.gamePaused) = true) := by simp [hpause]
  refine ⟨w1, ?_, hs1⟩
  unfold togglePause
  rw [if_neg hgo]
  dsimp only
  dsimp only at hloop
  rw [if_neg hnow, hloop]
  dsimp only
  rw [startAmplitudeDetection_of_no_audio w1 _ _ hs1.2.2.2.2.2.2.2]

theorem runCallbacks_cons_snap (w : World) (inp : Inputs) (handle : Nat) (rest : List Nat)
    (y v c : ℚ) (pending : List Nat) (next : Nat) (stored : Option Nat)
    (h : Snap w true false y v c pending next stored) (hmem : pending.contains handle = true)
    (hc : 132 ≤ c) (hc2 : c ≤ 802) (hy0 : 0 ≤ y + (v + 1 / 2)) (hy1 : y + (v + 1 / 2) ≤ 570) :
    ∃ w1 : World, runCallbacks (handle :: rest) w inp = runCallbacks rest w1 inp ∧
      Snap w1 true false (y + (v + 1 / 2)) (v + 1 / 2) (c - 2)
        (pending.filter (fun k => k != handle) ++ [next]) (next + 1) (some next) := by
  have hsnap : Snap { w with pendingFrames := w.pendingFrames.filter (fun k => k != handle) }
      true false y v c (pending.filter (fun k => k != handle)) next stored := by
    obtain ⟨hrun, hpause, hbird, hpipes, hpend, hnext, hst, haudio⟩ := h
    exact ⟨hrun, hpause, hbird, hpipes, by rw [← hpend], hnext, hst, haudio⟩
  obtain ⟨w1, hloop, hs1⟩ := gameLoop_snap _ inp.rand inp.today y v c _ next stored hsnap
    hc hc2 hy0 hy1
  refine ⟨w1, ?_, hs1⟩
  have hcont : w.pendingFrames.contains handle = true := by
    rw [h.2.2.2.2.1]
    exact hmem
  rw [runCallbacks, if_pos hcont, hloop]

/-- Claim C18, the code at the failing input: the game is started, then
`togglePause` is called twice (pause, resume) before the next display frame.
Pausing does not cancel the pending frame and resuming calls `gameLoop`
directly, so two `gameLoop` callbacks are pending, with handles 1 and 2; the
next display frame runs both, which advances the bird by two ticks (velocity
1 to 2) and leaves two callbacks pending again, with handles 3 and 4. -/
theorem pause_resume_leaves_two_pending_frames :
    pauseResumeTrace.map (fun w => w.pendingFrames) = some [1, 2] ∧
    pauseResumeTrace.map (fun w => w.bird.map (fun b => b.velocity)) = some (some 1) ∧
    (pauseResumeTrace.bind (fun w => displayFrame w quietInputs)).map
      (fun w => w.pendingFrames) = some [3, 4] ∧
    (pauseResumeTrace.bind (fun w => displayFrame w quietInputs)).map
      (fun w => w.bird.map (fun b => b.velocity)) = some (some 2) := by
  obtain ⟨w1, h1, s1⟩ := startGameplay_snap initialWorld 0 0 0 quietInputs [] 1 rfl rfl rfl
  obtain ⟨w2, h2, s2⟩ := togglePause_pause_snap w1 quietInputs _ _ _ _ _ _ s1
  obtain ⟨w3, h3, s3⟩ := togglePause_resume_snap w2 quietInputs _ _ _ _ _ _ s2
    (by norm_num) (by norm_num) (by norm_num) (by norm_num)
  have htrace : pauseResumeTrace = some w3 := by
    unfold pauseResumeTrace
    rw [h1, Option.some_bind, h2, Option.some_bind, h3]
  have hpend3 : w3.pendingFrames = [1, 2] := s3.2.2.2.2.1
  obtain ⟨w4, h4, s4⟩ := runCallbacks_cons_snap w3 quietInputs 1 [2] _ _ _ _ _ _ s3
    (by decide) (by norm_num) (by norm_num) (by norm_num) (by norm_num)
  obtain ⟨w5, h5, s5⟩ := runCallbacks_cons_snap w4 quietInputs 2 [] _ _ _ _ _ _ s4
    (by decide) (by norm_num) (by norm_num) (by norm_num) (by norm_num)
  have hframe : displayFrame w3 quietInputs = some w5 := by
    unfold displayFrame
    rw [hpend3, h4, h5]
    rfl
  have hpend5 : w5.pendingFrames = [3, 4] := by
    rw [s5.2.2.2.2.1]
    decide
  have hv3 : w3.bird.map (fun b => b.velocity) = some 1 := by
    rw [s3.2.2.1]
    simp only [Option.map_some']
    norm_num
  have hv5 : w5.bird.map (fun b => b.velocity) = some 2 := by
    rw [s5.2.2.1]
    simp only [Option.map_some']
    norm_num
  rw [htrace]
  simp only [Option.map_some', Option.some_bind, hframe]
  exact ⟨by rw [hpend3], by rw [hv3], by rw [hpend5], by rw [hv5]⟩

end BirdGame
